import Mathlib

/-!
Verification of the FCV data-analyst backend against its specification.

The development shallowly embeds the Python backend:
the chat orchestrator of `backend/main.py`, the query-spec parsing of
`backend/services/llm_service.py`, and the indicator fetching, caching,
country resolution, name normalization and population-table assembly of
`backend/services/data360_service.py`.

External collaborators that the repository treats as opaque capabilities
(the text-completion provider, the code extraction/validation/execution
engine, the `pycountry` fuzzy lookup, Unicode NFKD folding, JSON parsing
and numeric coercion) are embedded as function parameters, so every
theorem quantifies over their behavior.
-/

/-! ## Generic string helpers mirroring Python semantics -/

/-- Character constants built numerically so the file stays plain ASCII. -/
def lbraceChar : Char := Char.ofNat 123

def rbraceChar : Char := Char.ofNat 125

def aposChar : Char := Char.ofNat 39

def ampChar : Char := Char.ofNat 38

/-- Whether the first list starts with the second list. -/
def chrsStartWith : List Char → List Char → Bool
  | _, [] => true
  | [], _ :: _ => false
  | a :: as, b :: bs => a == b && chrsStartWith as bs

/-- Whether the pattern occurs as a contiguous run inside the list. -/
def chrsContain (pat : List Char) : List Char → Bool
  | [] => pat.isEmpty
  | c :: rest => chrsStartWith (c :: rest) pat || chrsContain pat rest

/-- Python `pat in s` substring test. -/
def strContains (s pat : String) : Bool := chrsContain pat.toList s.toList

/-- Python truthiness of an optional string: `None` and the empty string are falsy. -/
def pyTruthyOpt : Option String → Bool
  | none => false
  | some s => s ≠ ""

/-- Python `a or b` on optional strings: keep `a` when truthy, else fall back to `b`. -/
def pyOrOpt (a b : Option String) : Option String := if pyTruthyOpt a then a else b

/-- Python f-string rendering of an optional value: `None` prints as the word None. -/
def pyShowOpt : Option String → String
  | none => "None"
  | some s => s

/-- ASCII whitespace in the sense of Python `str.strip` and `str.split`. -/
def pyIsSpace (c : Char) : Bool :=
  c = ' ' || c = Char.ofNat 9 || c = Char.ofNat 10 ||
  c = Char.ofNat 13 || c = Char.ofNat 11 || c = Char.ofNat 12

/-- Remove trailing whitespace from a character list. -/
def dropWsEnd (l : List Char) : List Char :=
  List.foldr (fun c acc => if acc.isEmpty && pyIsSpace c then [] else c :: acc) [] l

/-- Python `s.strip()` (restricted to ASCII whitespace). -/
def pyStrip (s : String) : String :=
  String.mk (dropWsEnd (s.toList.dropWhile pyIsSpace))

/-- Accumulator-style splitting of a character list into whitespace-separated words. -/
def wordsAux : List Char → List Char → List String
  | acc, [] => if acc.isEmpty then [] else [String.mk acc.reverse]
  | acc, c :: rest =>
    if pyIsSpace c then
      if acc.isEmpty then wordsAux [] rest
      else String.mk acc.reverse :: wordsAux [] rest
    else wordsAux (c :: acc) rest

/-- Python `s.split()` with no separator: split on whitespace runs, dropping empties. -/
def pySplitWs (s : String) : List String := wordsAux [] s.toList

/-- Python `s.lower()` restricted to ASCII case folding. -/
def strLower (s : String) : String := String.mk (s.toList.map Char.toLower)

/-! ## Orchestrator data model, from `backend/main.py` -/

/-- A chat message of the conversation history (role plus content). -/
structure Msg where
  role : String
  content : String
deriving DecidableEq, Repr

/-- Result contract of the opaque execution capability
(`execute_safely` in the missing `code_executor` module);
fields mirror the dictionary keys read by `chat` in `backend/main.py`. -/
structure ExecResult where
  success : Bool
  output : String
  error : Option String
  charts : List String
  summaryData : Option String
deriving DecidableEq, Repr

/-- Canonical out-of-remit sentence, `OUT_OF_REMIT_MESSAGE` in `backend/main.py`. -/
def OUT_OF_REMIT_MESSAGE : String :=
  "I am designed to address FCV-focused data queries. Your question is beyond my remit. " ++
  "Please reformulate it as a data-focused question I can help with (e.g. trends, counts, maps, rankings from the dataset)."

/-- The user turn appended to history on a validation retry, from `backend/main.py`. -/
def retryPrompt (validationError : Option String) : String :=
  "The generated code failed validation: " ++ pyShowOpt validationError ++
  " Provide corrected Python code only, using allowed columns and no forbidden operations (no subprocess, os.system, eval, exec, network)."

/-- Keyword list of `LLMService.needs_narrative` in `backend/services/llm_service.py`. -/
def NARRATIVE_KEYWORDS : List String :=
  ["trend", "change", "pattern", "over time", "compare", "comparison",
   "increase", "decrease", "evolution", "shift", "regional", "geographic",
   "analysis", "analyze", "assessment", "assess", "summary", "summarize",
   "overview", "situation", "development", "developments", "security",
   "conflict", "violence", "fatalities", "events", "what happened"]

/-- The narrative-worthiness heuristic `LLMService.needs_narrative`. -/
def needs_narrative (prompt : String) : Bool :=
  if 5 < (pySplitWs prompt).length then true
  else NARRATIVE_KEYWORDS.any (fun k => strContains (strLower prompt) k)

/-- Environment of one orchestration run after the planning step: the two
possible generation replies and the opaque extraction, validation,
execution and narrative capabilities. -/
structure ChatCoreEnv where
  history : List Msg
  message : String
  gen1 : String
  gen2 : String
  extractCode : String → Option String
  validateCode : Option String → Bool × Option String
  exec : Option String → ExecResult
  narrativeText : String

/-- Observable outcome of one orchestration run: the assembled response of
`chat` in `backend/main.py` plus instrumentation counting how many times each
capability was invoked and which history the retry was issued with. -/
structure ChatOutcome where
  response : String
  code : Option String
  execution_result : Option String
  execution_success : Bool
  error : Option String
  charts : List String
  summary_data : Option String
  narrative : Option String
  genCalls : Nat
  valCalls : Nat
  execCalls : Nat
  retryHistory : Option (List Msg)
deriving DecidableEq, Repr

/-- Detection of a reply without a code block, from `backend/main.py`:
neither a python fence nor a bare fence occurs in the reply. -/
def hasNoCodeBlock (r : String) : Bool :=
  !(strContains r "```python") && !(strContains r "```")

/-- Execution phase of `chat` (`backend/main.py` lines 427 to 460): run the
code, recharacterize out-of-remit failures, then decide on a narrative. -/
def execPhase (env : ChatCoreEnv) (resp : String) (code : Option String)
    (g v : Nat) (rh : Option (List Msg)) : ChatOutcome :=
  let er := env.exec code
  let remit := !er.success ∧ pyTruthyOpt er.error = true ∧
    (strContains (er.error.getD "") "is not defined"
      || strContains (er.error.getD "") "execute_sql") = true
  let out := if remit then OUT_OF_REMIT_MESSAGE else er.output
  let err := if remit then none else er.error
  let succ := if remit then true else er.success
  let narrative :=
    if succ = true ∧ out ≠ "" ∧ 10 < (pyStrip out).length then
      if needs_narrative env.message then some env.narrativeText else none
    else none
  { response := resp, code := code, execution_result := some out,
    execution_success := succ, error := err, charts := er.charts,
    summary_data := er.summaryData, narrative := narrative,
    genCalls := g, valCalls := v, execCalls := 1, retryHistory := rh }

/-- The chat orchestrator of `backend/main.py` from the first generation call
on (lines 376 to 460): refusal detection, validation with a single retry,
execution and error normalization. -/
def chatCore (env : ChatCoreEnv) : ChatOutcome :=
  if hasNoCodeBlock env.gen1 then
    let text0 := pyStrip env.gen1
    let text := if text0 = "" ∨ text0.length < 20 then OUT_OF_REMIT_MESSAGE else text0
    { response := text, code := none, execution_result := some text,
      execution_success := true, error := none, charts := [],
      summary_data := none, narrative := none,
      genCalls := 1, valCalls := 0, execCalls := 0, retryHistory := none }
  else
    let code1 := env.extractCode env.gen1
    let v1 := env.validateCode code1
    if v1.1 = false then
      let rh := env.history ++
        [⟨"assistant", env.gen1⟩, ⟨"user", retryPrompt v1.2⟩]
      let code2 := env.extractCode env.gen2
      let v2 := env.validateCode code2
      if v2.1 = false then
        { response := env.gen2, code := code2, execution_result := none,
          execution_success := false,
          error := some ("Validation failed: " ++ pyShowOpt v2.2),
          charts := [], summary_data := none, narrative := none,
          genCalls := 2, valCalls := 2, execCalls := 0, retryHistory := some rh }
      else execPhase env env.gen2 code2 2 2 (some rh)
    else execPhase env env.gen1 code1 1 1 none

/-! ## Query planner parsing, from `LLMService.get_query_spec` -/

/-- Index of the first occurrence of a character, Python `str.find` (as an option). -/
def idxOfChar (c : Char) : List Char → Option Nat
  | [] => none
  | d :: rest => if d = c then some 0 else (idxOfChar c rest).map (· + 1)

/-- Index of the last occurrence of a character, Python `str.rfind` (as an option). -/
def idxOfLastChar (c : Char) (l : List Char) : Option Nat :=
  (idxOfChar c l.reverse).map (fun i => l.length - 1 - i)

/-- The substring handed to the JSON parser by `get_query_spec`: the reply is
stripped; when a first open brace and a later last close brace exist, the
enclosed slice is taken, otherwise the whole stripped reply. -/
def jsonCandidate (raw : String) : String :=
  let t := pyStrip raw
  let cs := t.toList
  match idxOfChar lbraceChar cs, idxOfLastChar rbraceChar cs with
  | some i, some j => if i < j then String.mk ((cs.drop i).take (j + 1 - i)) else t
  | _, _ => t

/-- The planner `LLMService.get_query_spec`, with JSON parsing abstracted as a
parameter returning `none` on any of the caught parse errors. -/
def get_query_spec {σ : Type} (parse : String → Option σ) (raw : String) : Option σ :=
  parse (jsonCandidate raw)

/-- Planning-phase environment of a chat run: the planner reply and parser,
and the rest of the run as a function of the resulting optional spec
(the spec feeds column profiling and the generation prompt downstream). -/
structure PlanEnv (σ : Type) where
  parse : String → Option σ
  planReply : String
  core : Option σ → ChatCoreEnv

/-- The chat entry point including the planning step of `backend/main.py`. -/
def chatFull {σ : Type} (e : PlanEnv σ) : ChatOutcome :=
  chatCore (e.core (get_query_spec e.parse e.planReply))

/-! ## Indicator fetching and caching, from `Data360Service._fetch_indicator_rows` -/

/-- Page size of the remote indicator API (`Data360Service.PAGE_SIZE`). -/
def PAGE_SIZE : Nat := 1000

/-- Hard page bound per query (`Data360Service.MAX_PAGES_PER_QUERY`). -/
def MAX_PAGES_PER_QUERY : Nat := 12

/-- One observation record of a remote page: the fields of a payload item
read by `_fetch_indicator_rows`, each possibly missing. -/
structure Obs where
  REF_AREA : Option String
  INDICATOR : Option String
  TIME_PERIOD : Option String
  OBS_VALUE : Option String
deriving DecidableEq, Repr

/-- One accumulated row of the fetched table. -/
structure Row where
  iso3 : Option String
  indicator : Option String
  year : Option String
  value : Option String
deriving DecidableEq, Repr

/-- Row built from one payload item, with the Python `or` fallbacks. -/
def mkRow (indicator : String) (iso3 : Option String) (o : Obs) : Row :=
  { iso3 := pyOrOpt o.REF_AREA iso3,
    indicator := pyOrOpt o.INDICATOR (some indicator),
    year := o.TIME_PERIOD,
    value := o.OBS_VALUE }

/-- Cache key: indicator, area code (the literal `_ALL_` when the area is
absent or empty), year-from, year-to. -/
abbrev CacheKey := String × String × Option Int × Option Int

/-- Key under which a query is cached; the area component mirrors both
`params.get` with default and `iso3 or _ALL_`, which agree. -/
def mkCacheKey (indicator : String) (iso3 : Option String)
    (year_from year_to : Option Int) : CacheKey :=
  (indicator, (if pyTruthyOpt iso3 then iso3.getD "" else "_ALL_"), year_from, year_to)

/-- The process-lifetime cache, an overwrite-on-insert association list. -/
abbrev Cache := List (CacheKey × List Row)

/-- Lookup in the cache (most recent insertion wins). -/
def cacheGet : Cache → CacheKey → Option (List Row)
  | [], _ => none
  | (k2, v) :: rest, k => if k2 = k then some v else cacheGet rest k

/-- Cache insertion: a new binding shadows any earlier one. -/
def cachePut (c : Cache) (k : CacheKey) (v : List Row) : Cache := (k, v) :: c

/-- Defensive page signature: first time period, last time period, row count. -/
def pageSignature (values : List Obs) : Option String × Option String × Nat :=
  (values.head?.bind Obs.TIME_PERIOD, values.getLast?.bind Obs.TIME_PERIOD, values.length)

/-- Observable outcome of the pagination loop: accumulated rows, whether the
early cache return fired, the final offset, and the number of network calls. -/
structure FetchOut where
  rows : List Row
  cacheHit : Bool
  skipFinal : Nat
  netCalls : Nat
deriving DecidableEq, Repr

/-- The pagination loop of `_fetch_indicator_rows`, fuelled: each iteration
increments the page counter and stops past the page bound; on the first page a
cache hit returns the stored rows; otherwise the remote page at the current
offset is fetched and appended, stopping on an empty page, on a repeated
signature at a nonzero offset, or on a short page. The fuel only needs to
exceed the page bound for the embedding to be exact. -/
def fetchLoop (server : Nat → List Obs) (indicator : String) (iso3 : Option String)
    (cache : Cache) (key : CacheKey) :
    Nat → Nat → Nat → Option (Option String × Option String × Nat) → List Row → Nat → FetchOut
  | 0, skip, _pages, _sig, rows, calls => ⟨rows, false, skip, calls⟩
  | fuel + 1, skip, pages, lastSig, rows, calls =>
    if MAX_PAGES_PER_QUERY < pages + 1 then ⟨rows, false, skip, calls⟩
    else if skip = 0 ∧ (cacheGet cache key).isSome then
      ⟨(cacheGet cache key).getD [], true, skip, calls⟩
    else
      let values := server skip
      if values.isEmpty then ⟨rows, false, skip, calls + 1⟩
      else
        let sig := pageSignature values
        if lastSig = some sig ∧ 0 < skip then ⟨rows, false, skip, calls + 1⟩
        else
          let rows2 := rows ++ values.map (mkRow indicator iso3)
          if values.length < PAGE_SIZE then ⟨rows2, false, skip, calls + 1⟩
          else fetchLoop server indicator iso3 cache key fuel
            (skip + PAGE_SIZE) (pages + 1) (some sig) rows2 (calls + 1)

/-- Overall result of `_fetch_indicator_rows`: rows, updated cache, calls. -/
structure FetchResult where
  rows : List Row
  cache : Cache
  netCalls : Nat
deriving DecidableEq, Repr

/-- The fetch entry `_fetch_indicator_rows`: run the loop from offset zero
with empty accumulators; unless the early cache return fired, store the
accumulated rows under the key when the offset never advanced. The `server`
parameter abstracts the remote API for the fixed non-offset parameters. -/
def fetch_indicator_rows (server : Nat → List Obs) (indicator : String)
    (iso3 : Option String) (year_from year_to : Option Int) (cache : Cache) : FetchResult :=
  let key := mkCacheKey indicator iso3 year_from year_to
  let out := fetchLoop server indicator iso3 cache key (MAX_PAGES_PER_QUERY + 1) 0 0 none [] 0
  if out.cacheHit then ⟨out.rows, cache, out.netCalls⟩
  else if out.skipFinal = 0 then ⟨out.rows, cachePut cache key out.rows, out.netCalls⟩
  else ⟨out.rows, cache, out.netCalls⟩

/-! ## Country-name normalization, from `Data360Service._normalize_country_name` -/

/-- Membership in the regex class of ASCII letters and digits. -/
def isAlnumAscii (c : Char) : Bool :=
  decide ((97 ≤ c.toNat ∧ c.toNat ≤ 122) ∨ (65 ≤ c.toNat ∧ c.toNat ≤ 90) ∨
    (48 ≤ c.toNat ∧ c.toNat ≤ 57))

/-- Lower-case ASCII letters and digits. -/
def isLowerAlnum (c : Char) : Bool :=
  decide ((97 ≤ c.toNat ∧ c.toNat ≤ 122) ∨ (48 ≤ c.toNat ∧ c.toNat ≤ 57))

/-- ASCII lower-casing of one character, the per-character action of
Python `str.lower` on the ASCII range. -/
def lowerChar (c : Char) : Char :=
  if 65 ≤ c.toNat ∧ c.toNat ≤ 90 then Char.ofNat (c.toNat + 32) else c

/-- ASCII upper-casing of one character. -/
def upperChar (c : Char) : Char :=
  if 97 ≤ c.toNat ∧ c.toNat ≤ 122 then Char.ofNat (c.toNat - 32) else c

/-- Python `value.replace` of each ampersand by the word and with spaces. -/
def foldAmp (l : List Char) : List Char :=
  l.flatMap (fun c => if c = ampChar then " and ".toList else [c])

/-- Regex substitution of every maximal run of non-alphanumerics by one
space; the flag records whether the previous character belonged to a run. -/
def collapseAux : Bool → List Char → List Char
  | _, [] => []
  | prev, c :: rest =>
    if isAlnumAscii c then c :: collapseAux false rest
    else if prev then collapseAux prev rest
    else ' ' :: collapseAux true rest

/-- Regex substitution of every whitespace run by one space. -/
def collapseWsAux : Bool → List Char → List Char
  | _, [] => []
  | prev, c :: rest =>
    if pyIsSpace c then
      if prev then collapseWsAux prev rest
      else ' ' :: collapseWsAux true rest
    else c :: collapseWsAux false rest

/-- Python `strip` on a character list. -/
def trimChars (l : List Char) : List Char := dropWsEnd (l.dropWhile pyIsSpace)

/-- The normalization pipeline applied after the ASCII fold: expand
ampersands, collapse non-alphanumeric runs to single spaces, strip, lower,
and collapse whitespace runs. -/
def normalizeChars (l : List Char) : List Char :=
  collapseWsAux false (List.map lowerChar (trimChars (collapseAux false (foldAmp l))))

/-- The normalizer `_normalize_country_name`, parameterized by the opaque
NFKD-decompose-and-ASCII-encode fold of the Python `unicodedata` collaborator
(the identity on ASCII strings). -/
def normalize_country_name (fold : String → String) (value : String) : String :=
  String.mk (normalizeChars (fold value).toList)

/-! ## Country resolution, from `Data360Service._country_to_iso3` -/

/-- Python `upper` restricted to ASCII. -/
def strUpper (s : String) : String := String.mk (s.toList.map upperChar)

/-- Regex removal of every character that is not an ASCII letter. -/
def filterLetters (s : String) : String :=
  String.mk (s.toList.filter (fun c =>
    decide ((97 ≤ c.toNat ∧ c.toNat ≤ 122) ∨ (65 ≤ c.toNat ∧ c.toNat ≤ 90))))

/-- The literal alias key containing an apostrophe. -/
def coteDIvoire : String := "Cote d" ++ String.mk [aposChar] ++ "Ivoire"

/-- The alias table `Data360Service.COUNTRY_ALIASES`, in source order. -/
def COUNTRY_ALIASES : List (String × String) := [
  ("Afghanistan", "AFG"), ("Algeria", "DZA"), ("Angola", "AGO"),
  ("Argentina", "ARG"), ("Armenia", "ARM"), ("Azerbaijan", "AZE"),
  ("Bangladesh", "BGD"), ("Belarus", "BLR"), ("Bolivia", "BOL"),
  ("Brazil", "BRA"), ("Burkina Faso", "BFA"), ("Burundi", "BDI"),
  ("Cabo Verde", "CPV"), ("Cameroon", "CMR"), ("Central African Republic", "CAF"),
  ("Chad", "TCD"), ("Chile", "CHL"), ("China", "CHN"), ("Colombia", "COL"),
  ("Costa Rica", "CRI"), (coteDIvoire, "CIV"), ("Cote dIvoire", "CIV"),
  ("Djibouti", "DJI"), ("Dominican Republic", "DOM"), ("Ecuador", "ECU"),
  ("Egypt", "EGY"), ("El Salvador", "SLV"), ("Eritrea", "ERI"),
  ("Ethiopia", "ETH"), ("Georgia", "GEO"), ("Ghana", "GHA"),
  ("Guatemala", "GTM"), ("Guinea", "GIN"), ("Guinea-Bissau", "GNB"),
  ("Haiti", "HTI"), ("Honduras", "HND"), ("India", "IND"),
  ("Indonesia", "IDN"), ("Iraq", "IRQ"), ("Israel", "ISR"),
  ("Jordan", "JOR"), ("Kazakhstan", "KAZ"), ("Kenya", "KEN"),
  ("Lebanon", "LBN"), ("Liberia", "LBR"), ("Libya", "LBY"),
  ("Madagascar", "MDG"), ("Mali", "MLI"), ("Mauritania", "MRT"),
  ("Mexico", "MEX"), ("Morocco", "MAR"), ("Mozambique", "MOZ"),
  ("Myanmar", "MMR"), ("Nepal", "NPL"), ("Nicaragua", "NIC"),
  ("Niger", "NER"), ("Nigeria", "NGA"), ("Czech Republic", "CZE"),
  ("Congo-Brazzaville", "COG"), ("Congo - Brazzaville", "COG"),
  ("Congo-Kinshasa", "COD"), ("Congo - Kinshasa", "COD"),
  ("Democratic Republic of Congo", "COD"), ("DR Congo", "COD"),
  ("Pakistan", "PAK"), ("Palestine", "PSE"), ("Panama", "PAN"),
  ("Paraguay", "PRY"), ("Papua New Guinea", "PNG"), ("Peru", "PER"),
  ("Philippines", "PHL"), ("Senegal", "SEN"), ("Sierra Leone", "SLE"),
  ("Somalia", "SOM"), ("South Africa", "ZAF"), ("South Sudan", "SSD"),
  ("Sri Lanka", "LKA"), ("Sudan", "SDN"), ("Tajikistan", "TJK"),
  ("Thailand", "THA"), ("Tunisia", "TUN"), ("Uganda", "UGA"),
  ("Ukraine", "UKR"), ("United States", "USA"), ("Venezuela, RB", "VEN"),
  ("Yemen", "YEM"), ("Zambia", "ZMB"), ("Zimbabwe", "ZWE"),
  ("Eswatini", "SWZ"), ("Iran", "IRN"), ("Kyrgyz Republic", "KGZ"),
  ("Laos", "LAO"), ("Micronesia", "FSM"), ("Moldova", "MDA"),
  ("North Korea", "PRK"), ("Russia", "RUS"), ("Syria", "SYR"),
  ("Tanzania", "TZA"), ("Turkey", "TUR"), ("Venezuela", "VEN"),
  ("Vietnam", "VNM"), ("West Bank and Gaza", "PSE"),
  ("Yemen (North)", "YEM"), ("Yemen (South)", "YEM")]

/-- Dictionary membership lookup (keys of the literal table are distinct). -/
def aliasLookup : List (String × String) → String → Option String
  | [], _ => none
  | (k, v) :: rest, s => if k = s then some v else aliasLookup rest s

/-- Lookup in which a later binding shadows an earlier one, the semantics of
a Python dict comprehension over possibly colliding derived keys. -/
def lookupLast : List (String × String) → String → Option String
  | [], _ => none
  | (k, v) :: rest, s =>
    match lookupLast rest s with
    | some r => some r
    | none => if k = s then some v else none

/-- The normalized-alias dictionary lookup of `_country_to_iso3`. -/
def normalizedAliasLookup (fold : String → String) (s : String) : Option String :=
  lookupLast (COUNTRY_ALIASES.map (fun p => (normalize_country_name fold p.1, p.2))) s

/-- Resolution result plus whether the external fuzzy stage was reached. -/
structure ResolveOut where
  code : Option String
  fuzzyTried : Bool
deriving DecidableEq, Repr

/-- The resolver `_country_to_iso3`: empty label, then dataset hint, then the
direct alias table on the stripped label, then the normalized alias table,
then the external fuzzy lookup (the opaque pycountry collaborator, `none`
standing for its absence or failure), then the 3-letter heuristic. -/
def country_to_iso3 (fold : String → String) (fuzzy : String → Option String)
    (country : String) (iso3_hint : Option String) : ResolveOut :=
  if country = "" then ⟨none, false⟩
  else if pyTruthyOpt iso3_hint = true ∧ (iso3_hint.getD "").length = 3 then
    ⟨some (strUpper (iso3_hint.getD "")), false⟩
  else
    let normalized := pyStrip country
    match aliasLookup COUNTRY_ALIASES normalized with
    | some code => ⟨some code, false⟩
    | none =>
      match normalizedAliasLookup fold (normalize_country_name fold normalized) with
      | some code => ⟨some code, false⟩
      | none =>
        match fuzzy normalized with
        | some c => ⟨some c, true⟩
        | none =>
          let letters := strUpper (filterLetters normalized)
          if letters.length = 3 then ⟨some letters, true⟩ else ⟨none, true⟩


/-! ## Canonical-form machinery for the normalization claims -/

/-- ASCII-only strings, on which the NFKD-plus-ASCII-encode fold is the identity. -/
def asciiOnly (s : String) : Bool := s.toList.all (fun c => c.toNat < 128)

/-- Character equivalence up to letter case and substitution of
non-alphanumerics, with the ampersand only equivalent to itself. -/
def chrEquiv (c d : Char) : Bool :=
  if isAlnumAscii c then isAlnumAscii d && (lowerChar c == lowerChar d)
  else (!isAlnumAscii d) && ((c == ampChar) == (d == ampChar))

/-- Pointwise equivalence of equal-length character lists. -/
def chrsEquiv : List Char → List Char → Bool
  | [], [] => true
  | c :: cs, d :: ds => chrEquiv c d && chrsEquiv cs ds
  | _, _ => false

/-- Canonical-form recognizer: lower-case alphanumerics separated by single
interior spaces, no leading or trailing space. The flag tells whether a
space may appear at the current position. -/
def canonF : Bool → List Char → Bool
  | _, [] => true
  | allow, c :: rest =>
    if isLowerAlnum c then canonF true rest
    else if c = ' ' then allow && !rest.isEmpty && canonF false rest
    else false

/-- As `canonF` with upper-case letters also permitted. -/
def canonUF : Bool → List Char → Bool
  | _, [] => true
  | allow, c :: rest =>
    if isAlnumAscii c then canonUF true rest
    else if c = ' ' then allow && !rest.isEmpty && canonUF false rest
    else false

/-- Alphanumerics and undoubled spaces; both ends may carry a space. -/
def wsp : Bool → List Char → Bool
  | _, [] => true
  | allow, c :: rest =>
    if isAlnumAscii c then wsp true rest
    else if c = ' ' then allow && wsp false rest
    else false


/-! ## Population table assembly, from `Data360Service.build_population_for_acled` -/

/-- A raw concatenated population row before numeric coercion: the fetched
columns iso3, year, value, plus the country label attached per fetch. -/
structure PRaw where
  iso3 : Option String
  year : Option String
  value : Option String
  country : Option String
deriving DecidableEq, Repr

/-- A coerced population row of the final table. -/
structure PRow where
  iso3 : Option String
  year : Option Int
  population : Option Int
  country : Option String
deriving DecidableEq, Repr

/-- Numeric coercion of one row; `parseNum` abstracts pandas `to_numeric`
with coerce semantics, `none` standing for NaN. -/
def coerceRow (parseNum : String → Option Int) (r : PRaw) : PRow :=
  { iso3 := r.iso3,
    year := r.year.bind parseNum,
    population := r.value.bind parseNum,
    country := r.country }

/-- The deduplication and sort key (country, year). -/
def rowKey (r : PRow) : String × Int := (r.country.getD "", r.year.getD 0)

/-- Lexicographic comparison of character lists by code point, the order
Python applies to strings. -/
def charsLeB : List Char → List Char → Bool
  | [], _ => true
  | _ :: _, [] => false
  | a :: as, b :: bs =>
    if a.toNat < b.toNat then true
    else if b.toNat < a.toNat then false
    else charsLeB as bs

/-- Lexicographic order on (country, year) keys. -/
def keyLeB (a b : String × Int) : Bool :=
  if a.1 = b.1 then a.2 ≤ b.2 else charsLeB a.1.toList b.1.toList

/-- Row order by (country, year), the `sort_values` order. -/
def rowLe (x y : PRow) : Prop := keyLeB (rowKey x) (rowKey y) = true

instance rowLeDecidable : DecidableRel rowLe := fun x y =>
  inferInstanceAs (Decidable (keyLeB (rowKey x) (rowKey y) = true))

/-- The dropna retention test: country, year and population all present. -/
def keepRow (r : PRow) : Bool := r.country.isSome && r.year.isSome && r.population.isSome

/-- Pandas `drop_duplicates` with keep set to last: a row survives exactly
when no later row shares its key, preserving the order of survivors. -/
def dedupKeepLast : List PRow → List PRow
  | [] => []
  | r :: rest =>
    if rest.any (fun x => rowKey x = rowKey r) then dedupKeepLast rest
    else r :: dedupKeepLast rest

/-- The table-shaping tail of `build_population_for_acled` (lines 252 to 261
of `data360_service.py`), applied to the concatenation of the per-country
fetched frames: coerce year and population, drop incomplete rows, sort by
(country, year) with a stable sort (pandas uses a stable lexicographic sort
for multi-column keys), and deduplicate keeping the last occurrence. -/
def build_population_rows (parseNum : String → Option Int) (raws : List PRaw) : List PRow :=
  dedupKeepLast (List.insertionSort rowLe
    ((raws.map (coerceRow parseNum)).filter keepRow))


/-! ## Shared concrete environments for witnesses -/

/-- Concrete environment whose first reply has no code block and carries
trailing whitespace, with inert capabilities. -/
def refusalEnv : ChatCoreEnv :=
  { history := [], message := "hello",
    gen1 := "This statement carries trailing whitespace padding. ",
    gen2 := "", extractCode := fun _ => none,
    validateCode := fun _ => (true, none),
    exec := fun _ => ⟨false, "", none, [], none⟩, narrativeText := "" }

/-- Concrete environment in which both generations fail validation. -/
def validationFailEnv : ChatCoreEnv :=
  { history := [⟨"user", "previous question"⟩], message := "count events",
    gen1 := "```python\nbad_one\n```", gen2 := "```python\nbad_two\n```",
    extractCode := fun r => some r,
    validateCode := fun _ => (false, some "column not allowed"),
    exec := fun _ => ⟨true, "ok", none, [], none⟩, narrativeText := "n" }

/-- Concrete environment in which validation passes and execution fails with
an undefined-capability error. -/
def remitFailEnv : ChatCoreEnv :=
  { history := [], message := "query the database",
    gen1 := "```python\nexecute_sql_query\n```", gen2 := "",
    extractCode := fun r => some r,
    validateCode := fun _ => (true, none),
    exec := fun _ => ⟨false, "", some "name execute_sql is not defined", [], none⟩,
    narrativeText := "n" }

/-- Concrete planning environment whose reply embeds a braced spec. -/
def planEnvNat : PlanEnv Nat :=
  { parse := fun s => if s = String.mk [lbraceChar, 'x', rbraceChar] then some 7 else none,
    planReply := "spec: " ++ String.mk [lbraceChar, 'x', rbraceChar] ++ " tail",
    core := fun _ => refusalEnv }


/-! ## Concrete servers for the fetch witnesses -/

/-- A concrete observation record. -/
def obsW : Obs := ⟨some "NGA", none, some "2020", some "123"⟩

/-- A server answering every offset with a single-row page. -/
def serverOneObs : Nat → List Obs := fun _ => [obsW]

/-- A stub server answering every offset with the identical full page. -/
def serverFullPage : Nat → List Obs := fun _ => List.replicate PAGE_SIZE obsW

/-- A server answering every offset with an empty page. -/
def serverEmpty : Nat → List Obs := fun _ => []

/-- Concrete numeric parser for the population witness. -/
def parseW : String → Option Int := fun z =>
  if z = "2019" then some 2019 else if z = "2020" then some 2020
  else if z = "5" then some 5 else if z = "6" then some 6
  else if z = "7" then some 7 else none

/-- Concrete fetched rows with a duplicate (country, year) pair and one
incomplete row. -/
def rawsW : List PRaw := [
  ⟨some "NGA", some "2020", some "5", some "Nigeria"⟩,
  ⟨some "KEN", some "2019", some "7", some "Kenya"⟩,
  ⟨some "NGA", some "2020", some "6", some "Nigeria"⟩,
  ⟨some "NGA", none, some "9", some "Nigeria"⟩]


/-! ## Claim C1: single validation retry, then terminal failure -/

/-- Claim C1: when the first generated code fails validation, generation is
re-invoked exactly once (two generation calls in total) with the prior
assistant turn and the specific validation error appended to history; when the
retried code also fails validation, the run terminates with a
validation-failure response carrying the specific error, and the execution
capability is never invoked. -/
theorem c1_retry_once_then_validation_failure (env : ChatCoreEnv)
    (hblock : hasNoCodeBlock env.gen1 = false)
    (h1 : (env.validateCode (env.extractCode env.gen1)).1 = false)
    (h2 : (env.validateCode (env.extractCode env.gen2)).1 = false) :
    chatCore env =
      { response := env.gen2,
        code := env.extractCode env.gen2,
        execution_result := none,
        execution_success := false,
        error := some ("Validation failed: " ++
          pyShowOpt (env.validateCode (env.extractCode env.gen2)).2),
        charts := [], summary_data := none, narrative := none,
        genCalls := 2, valCalls := 2, execCalls := 0,
        retryHistory := some (env.history ++
          [⟨"assistant", env.gen1⟩,
           ⟨"user", retryPrompt (env.validateCode (env.extractCode env.gen1)).2⟩]) } := by
  simp [chatCore, hblock, h1, h2]

/-- Witness for C1 at a concrete double-failure environment. -/
theorem c1_witness :
    (chatCore validationFailEnv).genCalls = 2 ∧
    (chatCore validationFailEnv).execCalls = 0 ∧
    (chatCore validationFailEnv).error = some "Validation failed: column not allowed" ∧
    (chatCore validationFailEnv).retryHistory =
      some [⟨"user", "previous question"⟩, ⟨"assistant", validationFailEnv.gen1⟩,
            ⟨"user", retryPrompt (some "column not allowed")⟩] := by
  have h := c1_retry_once_then_validation_failure validationFailEnv (by decide) rfl rfl
  rw [h]
  refine ⟨rfl, rfl, rfl, rfl⟩

/-! ## Claim C4: no code block means a terminal refusal response -/

set_option maxRecDepth 20000 in
/-- Counterexample to claim C4 as stated: a reply with no code block whose
stripped text is at least 20 characters is returned stripped, not verbatim,
so a reply carrying trailing whitespace is not echoed exactly. -/
theorem c4_counterexample :
    hasNoCodeBlock refusalEnv.gen1 = true ∧
    20 ≤ (pyStrip refusalEnv.gen1).length ∧
    (chatCore refusalEnv).response ≠ refusalEnv.gen1 := by
  decide

/-- Claim C4 as amended: for every reply with no code block, the run returns
without invoking validation or execution; the response equals the stripped
reply when the stripped reply is at least 20 characters and the canonical
out-of-remit sentence otherwise, with execution success true and code none. -/
theorem c4_no_code_block_refusal (env : ChatCoreEnv)
    (hno : hasNoCodeBlock env.gen1 = true) :
    (20 ≤ (pyStrip env.gen1).length → (chatCore env).response = pyStrip env.gen1) ∧
    ((pyStrip env.gen1).length < 20 → (chatCore env).response = OUT_OF_REMIT_MESSAGE) ∧
    (chatCore env).execution_success = true ∧
    (chatCore env).code = none ∧
    (chatCore env).error = none ∧
    (chatCore env).valCalls = 0 ∧
    (chatCore env).execCalls = 0 := by
  unfold chatCore
  rw [hno]
  simp only [if_true]
  refine ⟨?_, ?_, trivial, trivial, trivial, trivial, trivial⟩
  · intro hlen
    have h1 : ¬ (pyStrip env.gen1 = "" ∨ (pyStrip env.gen1).length < 20) := by
      rintro (h | h)
      · rw [h] at hlen; simp at hlen
      · omega
    simp [h1]
  · intro hlen
    have h1 : pyStrip env.gen1 = "" ∨ (pyStrip env.gen1).length < 20 := Or.inr hlen
    simp [h1]

/-- Witness for the amended C4 at a concrete short out-of-scope reply. -/
theorem c4_witness :
    (chatCore { refusalEnv with gen1 := "nope" }).response = OUT_OF_REMIT_MESSAGE ∧
    (chatCore { refusalEnv with gen1 := "nope" }).execution_success = true ∧
    (chatCore { refusalEnv with gen1 := "nope" }).code = none := by
  have h := c4_no_code_block_refusal { refusalEnv with gen1 := "nope" } (by decide)
  exact ⟨h.2.1 (by decide), h.2.2.1, h.2.2.2.1⟩

/-! ## Claim C5: out-of-remit execution errors are recharacterized -/

/-- Claim C5: when validated code executes with a false success flag and the
error text names an undefined out-of-scope capability, the outcome is
recharacterized: success true, error none, output the canonical sentence. -/
theorem c5_out_of_remit_recharacterization (env : ChatCoreEnv)
    (hblock : hasNoCodeBlock env.gen1 = false)
    (hvalid : (env.validateCode (env.extractCode env.gen1)).1 = true)
    (hfail : (env.exec (env.extractCode env.gen1)).success = false)
    (herr : pyTruthyOpt (env.exec (env.extractCode env.gen1)).error = true)
    (hsig : (strContains ((env.exec (env.extractCode env.gen1)).error.getD "") "is not defined"
        || strContains ((env.exec (env.extractCode env.gen1)).error.getD "") "execute_sql") = true) :
    (chatCore env).execution_success = true ∧
    (chatCore env).error = none ∧
    (chatCore env).execution_result = some OUT_OF_REMIT_MESSAGE := by
  unfold chatCore
  rw [hblock]
  simp only [Bool.false_eq_true, if_false, hvalid]
  unfold execPhase
  simp [hfail, herr, hsig]

/-- Witness for C5 at a concrete failing execution naming `execute_sql`. -/
theorem c5_witness :
    (chatCore remitFailEnv).execution_success = true ∧
    (chatCore remitFailEnv).error = none ∧
    (chatCore remitFailEnv).execution_result = some OUT_OF_REMIT_MESSAGE := by
  exact c5_out_of_remit_recharacterization remitFailEnv (by decide) rfl rfl (by decide) (by decide)

/-! ## Claim C9: planner parsing and silent degradation to an absent spec -/

/-- Claim C9: the planner locates the first open brace and the last close
brace of the stripped reply and hands the enclosed substring to the JSON
parser; whenever that parse fails the planner returns none, and the chat run
is unaffected: it proceeds exactly as the run with an absent spec. -/
theorem c9_planner_parse_and_silent_failure {σ : Type} (e : PlanEnv σ) (i j : Nat)
    (hi : idxOfChar lbraceChar (pyStrip e.planReply).toList = some i)
    (hj : idxOfLastChar rbraceChar (pyStrip e.planReply).toList = some j)
    (hij : i < j) :
    get_query_spec e.parse e.planReply =
      e.parse (String.mk (((pyStrip e.planReply).toList.drop i).take (j + 1 - i))) ∧
    (e.parse (jsonCandidate e.planReply) = none →
      get_query_spec e.parse e.planReply = none ∧ chatFull e = chatCore (e.core none)) := by
  constructor
  · unfold get_query_spec jsonCandidate
    simp only [hi, hj]
    simp [hij]
  · intro hfail
    refine ⟨hfail, ?_⟩
    unfold chatFull get_query_spec
    rw [show e.parse (jsonCandidate e.planReply) = none from hfail]

/-- Witness for C9 at a concrete reply with a braced spec and a parser that
rejects it. -/
theorem c9_witness :
    get_query_spec (fun s => if s = String.mk [lbraceChar, 'x', rbraceChar] then some 7 else none)
        planEnvNat.planReply = some 7 ∧
    chatFull { planEnvNat with parse := fun _ => (none : Option Nat) } =
      chatCore (planEnvNat.core none) := by
  have h1 := c9_planner_parse_and_silent_failure planEnvNat 6 8 (by decide) (by decide) (by decide)
  have h2 := c9_planner_parse_and_silent_failure
    { planEnvNat with parse := fun _ => (none : Option Nat) } 6 8 (by decide) (by decide) (by decide)
  refine ⟨?_, (h2.2 rfl).2⟩
  have := h1.1
  simpa using this

/-- The final offset never falls below the starting offset. -/
theorem fetchLoop_skip_le (server : Nat → List Obs) (ind : String) (iso3 : Option String)
    (cache : Cache) (key : CacheKey) :
    ∀ fuel skip pages sig rows calls,
      skip ≤ (fetchLoop server ind iso3 cache key fuel skip pages sig rows calls).skipFinal := by
  intro fuel
  induction fuel with
  | zero => intro skip pages sig rows calls; simp [fetchLoop]
  | succ n ih =>
    intro skip pages sig rows calls
    simp only [fetchLoop]
    split
    · simp
    · split
      · simp
      · split
        · simp
        · split
          · simp
          · split
            · simp
            · exact le_trans (Nat.le_add_right _ _) (ih _ _ _ _ _)

/-- Network calls made by the loop are bounded by the remaining page budget. -/
theorem fetchLoop_calls_le (server : Nat → List Obs) (ind : String) (iso3 : Option String)
    (cache : Cache) (key : CacheKey) :
    ∀ fuel skip pages sig rows calls,
      (fetchLoop server ind iso3 cache key fuel skip pages sig rows calls).netCalls ≤
        calls + (MAX_PAGES_PER_QUERY - pages) := by
  intro fuel
  induction fuel with
  | zero => intro skip pages sig rows calls; simp [fetchLoop]
  | succ n ih =>
    intro skip pages sig rows calls
    simp only [fetchLoop]
    split
    · simp
    · rename_i hpages
      split
      · simp
      · split
        · simp; omega
        · split
          · simp; omega
          · split
            · simp; omega
            · have h := ih (skip + PAGE_SIZE) (pages + 1)
                (some (pageSignature (server skip)))
                (rows ++ (server skip).map (mkRow ind iso3)) (calls + 1)
              refine le_trans h ?_
              omega

/-- A cache hit on the first page returns the stored rows with no call. -/
theorem fetchLoop_cache_hit (server : Nat → List Obs) (ind : String) (iso3 : Option String)
    (cache : Cache) (key : CacheKey) (rs : List Row) (fuel pages : Nat)
    (sig : Option (Option String × Option String × Nat)) (rows : List Row) (calls : Nat)
    (h : cacheGet cache key = some rs) (hpages : pages + 1 ≤ MAX_PAGES_PER_QUERY) :
    fetchLoop server ind iso3 cache key (fuel + 1) 0 pages sig rows calls =
      ⟨rs, true, 0, calls⟩ := by
  simp [fetchLoop, h, Nat.not_lt.2 hpages]

/-- First-page step of the loop on a cache miss. -/
theorem fetchLoop_first_miss (server : Nat → List Obs) (ind : String) (iso3 : Option String)
    (cache : Cache) (key : CacheKey) (fuel pages : Nat)
    (sig : Option (Option String × Option String × Nat)) (rows : List Row) (calls : Nat)
    (hmiss : cacheGet cache key = none) (hpages : pages + 1 ≤ MAX_PAGES_PER_QUERY) :
    fetchLoop server ind iso3 cache key (fuel + 1) 0 pages sig rows calls =
      (if (server 0).isEmpty then (⟨rows, false, 0, calls + 1⟩ : FetchOut)
       else if (server 0).length < PAGE_SIZE then
         ⟨rows ++ (server 0).map (mkRow ind iso3), false, 0, calls + 1⟩
       else fetchLoop server ind iso3 cache key fuel PAGE_SIZE (pages + 1)
         (some (pageSignature (server 0))) (rows ++ (server 0).map (mkRow ind iso3)) (calls + 1)) := by
  simp [fetchLoop, hmiss, Nat.not_lt.2 hpages]

/-- Lookup after an insertion finds the inserted rows. -/
theorem cacheGet_cachePut (c : Cache) (k : CacheKey) (v : List Row) :
    cacheGet (cachePut c k v) k = some v := by
  simp [cacheGet, cachePut]

/-- The early cache return can only fire at offset zero. -/
theorem fetchLoop_no_hit_pos (server : Nat → List Obs) (ind : String) (iso3 : Option String)
    (cache : Cache) (key : CacheKey) :
    ∀ fuel skip pages sig rows calls, 0 < skip →
      (fetchLoop server ind iso3 cache key fuel skip pages sig rows calls).cacheHit = false := by
  intro fuel
  induction fuel with
  | zero => intro skip pages sig rows calls _; simp [fetchLoop]
  | succ n ih =>
    intro skip pages sig rows calls hskip
    simp only [fetchLoop]
    split
    · simp
    · split
      · rename_i hc
        omega
      · split
        · simp
        · split
          · simp
          · split
            · simp
            · exact ih _ _ _ _ _ (by omega)

/-- A page at a nonzero offset whose signature repeats the previous one stops
the loop after its network call. -/
theorem fetchLoop_guard_stop (server : Nat → List Obs) (ind : String) (iso3 : Option String)
    (cache : Cache) (key : CacheKey) (fuel skip pages : Nat)
    (sig : Option (Option String × Option String × Nat)) (rows : List Row) (calls : Nat)
    (hfuel : 0 < fuel) (hpages : pages + 1 ≤ MAX_PAGES_PER_QUERY) (hskip : 0 < skip)
    (hne : (server skip).isEmpty = false)
    (hsig : sig = some (pageSignature (server skip))) :
    fetchLoop server ind iso3 cache key fuel skip pages sig rows calls =
      ⟨rows, false, skip, calls + 1⟩ := by
  cases fuel with
  | zero => omega
  | succ n =>
    have h0 : skip ≠ 0 := by omega
    simp [fetchLoop, Nat.not_lt.2 hpages, h0, hne, hsig, hskip]

/-! ## Claim C2: cache population and cache hits -/

/-- Claim C2: (i) on a cache miss, any entry appearing under the key after a
fetch holds exactly the first page, which was short, and exactly one network
call was made (the cache is populated only when the offset never advanced);
(ii) on a cache hit, the fetch returns the stored rows with no network call
and an unchanged cache. -/
theorem c2_cache_population_and_hits (server : Nat → List Obs) (indicator : String)
    (iso3 : Option String) (yf yt : Option Int) (cache : Cache) :
    (cacheGet cache (mkCacheKey indicator iso3 yf yt) = none →
      ∀ rs, cacheGet (fetch_indicator_rows server indicator iso3 yf yt cache).cache
          (mkCacheKey indicator iso3 yf yt) = some rs →
        rs = (server 0).map (mkRow indicator iso3) ∧
        (server 0).length < PAGE_SIZE ∧
        (fetch_indicator_rows server indicator iso3 yf yt cache).netCalls = 1) ∧
    (∀ rs, cacheGet cache (mkCacheKey indicator iso3 yf yt) = some rs →
      fetch_indicator_rows server indicator iso3 yf yt cache = ⟨rs, cache, 0⟩) := by
  constructor
  · intro hmiss rs hsome
    have hrw := fetchLoop_first_miss server indicator iso3 cache
      (mkCacheKey indicator iso3 yf yt) MAX_PAGES_PER_QUERY 0 none [] 0 hmiss
      (by norm_num [MAX_PAGES_PER_QUERY])
    simp only [fetch_indicator_rows, hrw] at hsome ⊢
    by_cases he : (server 0).isEmpty = true
    · have h0 : server 0 = [] := by simpa using he
      rw [if_pos he] at hsome ⊢
      simp only [cachePut] at hsome
      simp only [cacheGet, if_pos rfl] at hsome
      have : rs = ([] : List Row) := by
        cases hsome; rfl
      subst this
      simp [h0, PAGE_SIZE]
    · rw [if_neg he] at hsome ⊢
      by_cases hl : (server 0).length < PAGE_SIZE
      · rw [if_pos hl] at hsome ⊢
        simp only [cachePut] at hsome
        simp only [cacheGet, if_pos rfl] at hsome
        have : rs = (server 0).map (mkRow indicator iso3) := by
          cases hsome; rfl
        subst this
        simp [hl]
      · rw [if_neg hl] at hsome
        exfalso
        have hskip := fetchLoop_skip_le server indicator iso3 cache
          (mkCacheKey indicator iso3 yf yt) MAX_PAGES_PER_QUERY PAGE_SIZE 1
          (some (pageSignature (server 0))) ([] ++ (server 0).map (mkRow indicator iso3)) 1
        have hhit := fetchLoop_no_hit_pos server indicator iso3 cache
          (mkCacheKey indicator iso3 yf yt) MAX_PAGES_PER_QUERY PAGE_SIZE 1
          (some (pageSignature (server 0))) ([] ++ (server 0).map (mkRow indicator iso3)) 1
          (by norm_num [PAGE_SIZE])
        rw [hhit] at hsome
        have hnz : ¬ ((fetchLoop server indicator iso3 cache
            (mkCacheKey indicator iso3 yf yt) MAX_PAGES_PER_QUERY PAGE_SIZE 1
            (some (pageSignature (server 0)))
            ([] ++ (server 0).map (mkRow indicator iso3)) 1).skipFinal = 0) := by
          have hps : PAGE_SIZE = 1000 := rfl
          have : PAGE_SIZE ≤ _ := hskip
          omega
        simp only [Bool.false_eq_true, if_false, if_neg hnz] at hsome
        rw [hmiss] at hsome
        cases hsome
  · intro rs hhit
    have hrw := fetchLoop_cache_hit server indicator iso3 cache
      (mkCacheKey indicator iso3 yf yt) rs MAX_PAGES_PER_QUERY 0 none [] 0 hhit
      (by norm_num [MAX_PAGES_PER_QUERY])
    simp [fetch_indicator_rows, hrw]

/-! ## Claim C3: pagination termination conditions -/

/-- Claim C3: a fetch issues at most the fixed maximum number of page
requests; on a cache miss it stops after one request when the first page is
short; and against a server that always returns the identical full page
(ignoring the offset) the defensive signature guard stops it after two
requests. -/
theorem c3_pagination_terminates (server : Nat → List Obs) (indicator : String)
    (iso3 : Option String) (yf yt : Option Int) (cache : Cache) :
    (fetch_indicator_rows server indicator iso3 yf yt cache).netCalls ≤ MAX_PAGES_PER_QUERY ∧
    (cacheGet cache (mkCacheKey indicator iso3 yf yt) = none →
      (server 0).length < PAGE_SIZE →
      (fetch_indicator_rows server indicator iso3 yf yt cache).netCalls = 1) ∧
    (∀ P : List Obs, (∀ s, server s = P) → P.length = PAGE_SIZE →
      cacheGet cache (mkCacheKey indicator iso3 yf yt) = none →
      (fetch_indicator_rows server indicator iso3 yf yt cache).netCalls = 2) := by
  refine ⟨?_, ?_, ?_⟩
  · have hb := fetchLoop_calls_le server indicator iso3 cache
      (mkCacheKey indicator iso3 yf yt) (MAX_PAGES_PER_QUERY + 1) 0 0 none [] 0
    simp only [fetch_indicator_rows]
    split
    · simpa using hb
    · split
      · simpa using hb
      · simpa using hb
  · intro hmiss hshort
    have hrw := fetchLoop_first_miss server indicator iso3 cache
      (mkCacheKey indicator iso3 yf yt) MAX_PAGES_PER_QUERY 0 none [] 0 hmiss
      (by norm_num [MAX_PAGES_PER_QUERY])
    simp only [fetch_indicator_rows, hrw]
    by_cases he : (server 0).isEmpty = true
    · rw [if_pos he]; simp
    · rw [if_neg he, if_pos hshort]; simp
  · intro P hP hPlen hmiss
    have hps : PAGE_SIZE = 1000 := rfl
    have hPne : P.isEmpty = false := by
      cases P with
      | nil => rw [hps] at hPlen; simp at hPlen
      | cons a l => rfl
    have hne : (server 0).isEmpty = false := by rw [hP 0]; exact hPne
    have hnshort : ¬ (server 0).length < PAGE_SIZE := by rw [hP 0, hPlen]; omega
    have hrw := fetchLoop_first_miss server indicator iso3 cache
      (mkCacheKey indicator iso3 yf yt) MAX_PAGES_PER_QUERY 0 none [] 0 hmiss
      (by norm_num [MAX_PAGES_PER_QUERY])
    rw [if_neg (by simp [hne]), if_neg hnshort] at hrw
    have hne2 : (server PAGE_SIZE).isEmpty = false := by rw [hP PAGE_SIZE]; exact hPne
    have hsig2 : some (pageSignature (server 0)) = some (pageSignature (server PAGE_SIZE)) := by
      rw [hP 0, hP PAGE_SIZE]
    have hstop := fetchLoop_guard_stop server indicator iso3 cache
      (mkCacheKey indicator iso3 yf yt) MAX_PAGES_PER_QUERY PAGE_SIZE 1
      (some (pageSignature (server 0))) ([] ++ (server 0).map (mkRow indicator iso3)) 1
      (by norm_num [MAX_PAGES_PER_QUERY]) (by norm_num [MAX_PAGES_PER_QUERY])
      (by rw [hps]; omega) hne2 hsig2
    rw [hstop] at hrw
    simp only [fetch_indicator_rows, hrw]
    have hPSne : ¬ (PAGE_SIZE = 0) := by rw [hps]; omega
    simp [hPSne]

/-! ## Claim C10: an empty first page is cached and served -/

/-- Claim C10: when the first page of a cache-miss fetch is empty, the empty
table is stored under the key, and any subsequent fetch with the same key
returns the empty table with no network call, whatever the server then does. -/
theorem c10_empty_first_page_cached (server : Nat → List Obs) (indicator : String)
    (iso3 : Option String) (yf yt : Option Int) (cache : Cache)
    (hmiss : cacheGet cache (mkCacheKey indicator iso3 yf yt) = none)
    (hempty : server 0 = []) :
    fetch_indicator_rows server indicator iso3 yf yt cache =
      ⟨[], cachePut cache (mkCacheKey indicator iso3 yf yt) [], 1⟩ ∧
    cacheGet (cachePut cache (mkCacheKey indicator iso3 yf yt) [])
      (mkCacheKey indicator iso3 yf yt) = some [] ∧
    (∀ server2 : Nat → List Obs,
      fetch_indicator_rows server2 indicator iso3 yf yt
          (cachePut cache (mkCacheKey indicator iso3 yf yt) []) =
        ⟨[], cachePut cache (mkCacheKey indicator iso3 yf yt) [], 0⟩) := by
  have hrw := fetchLoop_first_miss server indicator iso3 cache
    (mkCacheKey indicator iso3 yf yt) MAX_PAGES_PER_QUERY 0 none [] 0 hmiss
    (by norm_num [MAX_PAGES_PER_QUERY])
  rw [if_pos (by simp [hempty])] at hrw
  refine ⟨?_, cacheGet_cachePut _ _ _, ?_⟩
  · simp [fetch_indicator_rows, hrw]
  · intro server2
    have hhit := fetchLoop_cache_hit server2 indicator iso3
      (cachePut cache (mkCacheKey indicator iso3 yf yt) [])
      (mkCacheKey indicator iso3 yf yt) [] MAX_PAGES_PER_QUERY 0 none [] 0
      (cacheGet_cachePut _ _ _) (by norm_num [MAX_PAGES_PER_QUERY])
    simp [fetch_indicator_rows, hhit]

set_option maxRecDepth 20000 in
/-- Witness for C2 at a single-row first page against an empty cache. -/
theorem c2_witness :
    [mkRow "IND" (some "NGA") obsW] = (serverOneObs 0).map (mkRow "IND" (some "NGA")) ∧
    (serverOneObs 0).length < PAGE_SIZE ∧
    (fetch_indicator_rows serverOneObs "IND" (some "NGA") none none []).netCalls = 1 :=
  (c2_cache_population_and_hits serverOneObs "IND" (some "NGA") none none []).1
    rfl [mkRow "IND" (some "NGA") obsW] (by decide)

/-- Witness for C3 against the offset-ignoring full-page stub server. -/
theorem c3_witness :
    (fetch_indicator_rows serverFullPage "IND" (some "NGA") none none []).netCalls = 2 :=
  (c3_pagination_terminates serverFullPage "IND" (some "NGA") none none []).2.2
    (List.replicate PAGE_SIZE obsW) (fun _ => rfl) (by simp) rfl

/-- Witness for C10 at a concrete empty fetch followed by a cache hit. -/
theorem c10_witness :
    fetch_indicator_rows serverEmpty "IND" (some "NGA") none none [] =
      ⟨[], cachePut [] (mkCacheKey "IND" (some "NGA") none none) [], 1⟩ ∧
    fetch_indicator_rows serverOneObs "IND" (some "NGA") none none
        (cachePut [] (mkCacheKey "IND" (some "NGA") none none) []) =
      ⟨[], cachePut [] (mkCacheKey "IND" (some "NGA") none none) [], 0⟩ := by
  have h := c10_empty_first_page_cached serverEmpty "IND" (some "NGA") none none [] rfl rfl
  exact ⟨h.1, h.2.2 serverOneObs⟩

/-! ## Claim C6: resolver priority order -/

/-- Lookup in a table with pairwise-distinct keys finds any member. -/
theorem aliasLookup_of_mem :
    ∀ (l : List (String × String)) (k v : String),
      List.Pairwise (fun a b => a.1 ≠ b.1) l → (k, v) ∈ l → aliasLookup l k = some v := by
  intro l
  induction l with
  | nil => intro k v _ hm; cases hm
  | cons p rest ih =>
    intro k v hp hm
    rcases List.mem_cons.mp hm with hm2 | hm2
    · rcases p with ⟨pk, pv⟩
      cases hm2
      simp [aliasLookup]
    · have hne : p.1 ≠ k := by
        have := (List.pairwise_cons.mp hp).1 (k, v) hm2
        simpa using this
      rcases p with ⟨pk, pv⟩
      simp only [aliasLookup, if_neg hne]
      exact ih k v (List.pairwise_cons.mp hp).2 hm2

/-- The alias-table keys are pairwise distinct. -/
theorem alias_keys_distinct : List.Pairwise (fun a b => a.1 ≠ b.1) COUNTRY_ALIASES := by
  decide

/-- Every alias-table key is nonempty and free of surrounding whitespace. -/
theorem alias_keys_clean :
    COUNTRY_ALIASES.all (fun p => (pyStrip p.1 == p.1) && (p.1 != "")) = true := by
  decide

/-- Claim C6: resolution tries, in order, the dataset-derived hint, the
direct alias table on the stripped label, the normalized alias table, the
external fuzzy lookup and the 3-letter heuristic, short-circuiting on the
first success; in particular a label present verbatim in the alias table,
resolved without a hint, yields the table code with the fuzzy stage never
reached. -/
theorem c6_resolution_priority (fold : String → String) (fuzzy : String → Option String)
    (country : String) (hint : Option String) (hc : country ≠ "") :
    (pyTruthyOpt hint = true ∧ (hint.getD "").length = 3 →
      country_to_iso3 fold fuzzy country hint = ⟨some (strUpper (hint.getD "")), false⟩) ∧
    (¬ (pyTruthyOpt hint = true ∧ (hint.getD "").length = 3) →
      (∀ code, aliasLookup COUNTRY_ALIASES (pyStrip country) = some code →
        country_to_iso3 fold fuzzy country hint = ⟨some code, false⟩) ∧
      (aliasLookup COUNTRY_ALIASES (pyStrip country) = none →
        (∀ code,
          normalizedAliasLookup fold (normalize_country_name fold (pyStrip country)) = some code →
          country_to_iso3 fold fuzzy country hint = ⟨some code, false⟩) ∧
        (normalizedAliasLookup fold (normalize_country_name fold (pyStrip country)) = none →
          (∀ c, fuzzy (pyStrip country) = some c →
            country_to_iso3 fold fuzzy country hint = ⟨some c, true⟩) ∧
          (fuzzy (pyStrip country) = none →
            country_to_iso3 fold fuzzy country hint =
              ⟨if (strUpper (filterLetters (pyStrip country))).length = 3
                then some (strUpper (filterLetters (pyStrip country))) else none, true⟩)))) ∧
    (∀ code, (country, code) ∈ COUNTRY_ALIASES →
      country_to_iso3 fold fuzzy country none = ⟨some code, false⟩) := by
  refine ⟨?_, ?_, ?_⟩
  · intro hhint
    simp only [country_to_iso3, if_neg hc, if_pos hhint]
  · intro hnh
    refine ⟨?_, ?_⟩
    · intro code hcode
      simp only [country_to_iso3, if_neg hc, if_neg hnh]
      simp [hcode]
    · intro hdirect
      refine ⟨?_, ?_⟩
      · intro code hcode
        simp only [country_to_iso3, if_neg hc, if_neg hnh]
        simp [hdirect, hcode]
      · intro hnorm
        refine ⟨?_, ?_⟩
        · intro c hcode
          simp only [country_to_iso3, if_neg hc, if_neg hnh]
          simp [hdirect, hnorm, hcode]
        · intro hfz
          simp only [country_to_iso3, if_neg hc, if_neg hnh]
          simp only [hdirect, hnorm, hfz]
          split <;> rfl
  · intro code hmem
    have hclean := List.all_eq_true.mp alias_keys_clean _ hmem
    have hstrip : pyStrip country = country := by
      simp only [Bool.and_eq_true, beq_iff_eq, bne_iff_ne] at hclean
      exact hclean.1
    have hlook : aliasLookup COUNTRY_ALIASES country = some code :=
      aliasLookup_of_mem COUNTRY_ALIASES country code alias_keys_distinct hmem
    simp only [country_to_iso3, if_neg hc]
    have hnh : ¬ (pyTruthyOpt (none : Option String) = true ∧
        ((none : Option String).getD "").length = 3) := by simp [pyTruthyOpt]
    rw [if_neg hnh, hstrip]
    simp [hlook]

/-- Witness for C6: the alias key containing an apostrophe resolves to CIV
without the fuzzy stage, against an always-failing fuzzy resolver. -/
theorem c6_witness :
    country_to_iso3 (fun s => s) (fun _ => none) coteDIvoire none =
      ⟨some "CIV", false⟩ := by
  have h := (c6_resolution_priority (fun s => s) (fun _ => none) coteDIvoire none
    (by decide)).2.2
  exact h "CIV" (by decide)

/-! ## Claim C7: normalization lemmas -/

/-- Characters are equal when their code points are. -/
theorem char_eq_of_toNat_eq {a b : Char} (h : a.toNat = b.toNat) : a = b :=
  Char.eq_of_val_eq (UInt32.ext h)

/-- Code point of `Char.ofNat` below the surrogate range. -/
theorem toNat_ofNat_valid (n : Nat) (h : n < 55296) : (Char.ofNat n).toNat = n := by
  rw [Char.ofNat, dif_pos (Or.inl h)]
  rfl

/-- Code point of the ASCII lower-casing. -/
theorem lowerChar_toNat (c : Char) :
    (lowerChar c).toNat = if 65 ≤ c.toNat ∧ c.toNat ≤ 90 then c.toNat + 32 else c.toNat := by
  unfold lowerChar
  split
  · rename_i h
    exact toNat_ofNat_valid _ (by omega)
  · rfl

/-- Lower-casing an alphanumeric yields a lower-case alphanumeric. -/
theorem isLowerAlnum_lowerChar (c : Char) (h : isAlnumAscii c = true) :
    isLowerAlnum (lowerChar c) = true := by
  simp only [isAlnumAscii, decide_eq_true_eq] at h
  have hl := lowerChar_toNat c
  simp only [isLowerAlnum, decide_eq_true_eq]
  split at hl <;> omega

/-- Lower-casing fixes characters that are already lower-case alphanumerics. -/
theorem lowerChar_of_lower (c : Char) (h : isLowerAlnum c = true) : lowerChar c = c := by
  simp only [isLowerAlnum, decide_eq_true_eq] at h
  unfold lowerChar
  rw [if_neg (by omega)]

/-- Alphanumerics are not Python whitespace. -/
theorem pyIsSpace_false_of_ge (c : Char) (h : 48 ≤ c.toNat) : pyIsSpace c = false := by
  have h1 : c ≠ ' ' := fun he => absurd (he ▸ h) (by decide)
  have h2 : c ≠ Char.ofNat 9 := fun he => absurd (he ▸ h) (by decide)
  have h3 : c ≠ Char.ofNat 10 := fun he => absurd (he ▸ h) (by decide)
  have h4 : c ≠ Char.ofNat 13 := fun he => absurd (he ▸ h) (by decide)
  have h5 : c ≠ Char.ofNat 11 := fun he => absurd (he ▸ h) (by decide)
  have h6 : c ≠ Char.ofNat 12 := fun he => absurd (he ▸ h) (by decide)
  simp [pyIsSpace, h1, h2, h3, h4, h5, h6]

/-- Alphanumerics have code points at least 48. -/
theorem toNat_ge_of_alnum (c : Char) (h : isAlnumAscii c = true) : 48 ≤ c.toNat := by
  simp only [isAlnumAscii, decide_eq_true_eq] at h
  omega

/-- Lower-case alphanumerics have code points at least 48. -/
theorem toNat_ge_of_lower (c : Char) (h : isLowerAlnum c = true) : 48 ≤ c.toNat := by
  simp only [isLowerAlnum, decide_eq_true_eq] at h
  omega

/-- Space is not alphanumeric. -/
theorem isAlnumAscii_space : isAlnumAscii ' ' = false := by decide

/-- Space is not a lower-case alphanumeric. -/
theorem isLowerAlnum_space : isLowerAlnum ' ' = false := by decide

/-- Space is fixed by lower-casing. -/
theorem lowerChar_space : lowerChar ' ' = ' ' := by decide

/-- Lower-case alphanumerics are below the alphanumeric bound for ASCII. -/
theorem toNat_lt_of_lower (c : Char) (h : isLowerAlnum c = true) : c.toNat < 128 := by
  simp only [isLowerAlnum, decide_eq_true_eq] at h
  omega

/-- After collapsing, the list is alphanumerics and undoubled spaces. -/
theorem wsp_collapseAux : ∀ (l : List Char) (b : Bool), wsp (!b) (collapseAux b l) = true := by
  intro l
  induction l with
  | nil => intro b; rfl
  | cons c rest ih =>
    intro b
    cases hc : isAlnumAscii c with
    | true => simpa [collapseAux, hc, wsp] using ih false
    | false =>
      cases b with
      | true => simpa [collapseAux, hc] using ih true
      | false => simpa [collapseAux, hc, wsp, isAlnumAscii_space] using ih true

/-- Dropping leading whitespace from an alnum-space list leaves no leading space. -/
theorem wsp_dropWhile : ∀ (l : List Char) (a : Bool), wsp a l = true →
    wsp false (l.dropWhile pyIsSpace) = true := by
  intro l
  induction l with
  | nil => intro a _; rfl
  | cons c rest ih =>
    intro a h
    cases hc : isAlnumAscii c with
    | true =>
      have hns : pyIsSpace c = false := pyIsSpace_false_of_ge c (toNat_ge_of_alnum c hc)
      rw [List.dropWhile_cons_of_neg (by simp [hns])]
      simp only [wsp, hc, if_true] at h ⊢
      simpa using h
    | false =>
      by_cases hsp : c = ' '
      · subst hsp
        rw [List.dropWhile_cons_of_pos (by norm_num [pyIsSpace])]
        simp only [wsp, isAlnumAscii_space, Bool.false_eq_true, if_false, eq_self_iff_true,
          if_true, Bool.and_eq_true] at h
        exact ih false h.2
      · exfalso
        simp [wsp, hc, hsp] at h

/-- Unfolding of the trailing-whitespace removal. -/
theorem dropWsEnd_cons (c : Char) (rest : List Char) :
    dropWsEnd (c :: rest) =
      if (dropWsEnd rest).isEmpty && pyIsSpace c then [] else c :: dropWsEnd rest := rfl

/-- Removing trailing whitespace from an alnum-space list with no leading
space (when disallowed) produces a canonical list up to letter case. -/
theorem canonUF_dropWsEnd : ∀ (l : List Char) (a : Bool), wsp a l = true →
    canonUF a (dropWsEnd l) = true := by
  intro l
  induction l with
  | nil => intro a _; rfl
  | cons c rest ih =>
    intro a h
    rw [dropWsEnd_cons]
    cases hc : isAlnumAscii c with
    | true =>
      have hns : pyIsSpace c = false := pyIsSpace_false_of_ge c (toNat_ge_of_alnum c hc)
      rw [if_neg (by simp [hns])]
      simp only [wsp, hc, if_true] at h
      simp only [canonUF, hc, if_true]
      exact ih true (by simpa using h)
    | false =>
      by_cases hsp : c = ' '
      · subst hsp
        simp only [wsp, isAlnumAscii_space, Bool.false_eq_true, if_false, eq_self_iff_true,
          if_true, Bool.and_eq_true] at h
        obtain ⟨ha, hrest⟩ := h
        by_cases hemp : (dropWsEnd rest).isEmpty = true
        · rw [if_pos (by rw [hemp]; norm_num [pyIsSpace])]
          rfl
        · rw [if_neg (by simp [hemp])]
          simp only [canonUF, isAlnumAscii_space, Bool.false_eq_true, if_false,
            eq_self_iff_true, if_true]
          rw [ha]
          simp only [Bool.true_and, Bool.and_eq_true]
          exact ⟨by simp [hemp], ih false hrest⟩
      · exfalso
        simp [wsp, hc, hsp] at h

/-- Lower-casing a canonical-up-to-case list yields a canonical list. -/
theorem canonF_map_lower : ∀ (l : List Char) (a : Bool), canonUF a l = true →
    canonF a (l.map lowerChar) = true := by
  intro l
  induction l with
  | nil => intro a _; rfl
  | cons c rest ih =>
    intro a h
    simp only [List.map_cons]
    cases hc : isAlnumAscii c with
    | true =>
      simp only [canonUF, hc, if_true] at h
      simp only [canonF, isLowerAlnum_lowerChar c hc, if_true]
      exact ih true (by simpa using h)
    | false =>
      by_cases hsp : c = ' '
      · subst hsp
        simp only [canonUF, isAlnumAscii_space, Bool.false_eq_true, if_false, eq_self_iff_true,
          if_true, Bool.and_eq_true] at h
        obtain ⟨⟨ha, hne⟩, hrest⟩ := h
        rw [lowerChar_space]
        simp only [canonF, isLowerAlnum_space, Bool.false_eq_true, if_false,
          eq_self_iff_true, if_true]
        rw [ha]
        simp only [Bool.true_and, Bool.and_eq_true]
        refine ⟨by simpa using hne, ih false hrest⟩
      · exfalso
        simp [canonUF, hc, hsp] at h

/-- Members of a canonical list are lower-case alphanumerics or spaces. -/
theorem canonF_mem : ∀ (l : List Char) (a : Bool), canonF a l = true →
    ∀ c ∈ l, isLowerAlnum c = true ∨ c = ' ' := by
  intro l
  induction l with
  | nil => intro a _ c hc; cases hc
  | cons d rest ih =>
    intro a h c hcmem
    cases hd : isLowerAlnum d with
    | true =>
      simp only [canonF, hd, if_true] at h
      rcases List.mem_cons.mp hcmem with he | he
      · subst he; exact Or.inl hd
      · exact ih true h c he
    | false =>
      by_cases hsp : d = ' '
      · subst hsp
        simp only [canonF, isLowerAlnum_space, Bool.false_eq_true, if_false, eq_self_iff_true,
          if_true, Bool.and_eq_true] at h
        rcases List.mem_cons.mp hcmem with he | he
        · subst he; exact Or.inr rfl
        · exact ih false h.2 c he
      · exfalso; simp [canonF, hd, hsp] at h

/-- Ampersand expansion is the identity on ampersand-free lists. -/
theorem foldAmp_eq_self : ∀ (l : List Char), (∀ c ∈ l, ¬ c = ampChar) → foldAmp l = l := by
  intro l
  induction l with
  | nil => intro _; rfl
  | cons c rest ih =>
    intro h
    have hr := ih (fun d hd => h d (List.mem_cons_of_mem _ hd))
    simp only [foldAmp, List.flatMap_cons] at hr ⊢
    rw [if_neg (h c (List.mem_cons_self c rest)), hr]
    rfl

/-- Canonical lists contain no ampersand. -/
theorem canonF_not_amp (l : List Char) (a : Bool) (h : canonF a l = true) :
    ∀ c ∈ l, ¬ c = ampChar := by
  intro c hc he
  rcases canonF_mem l a h c hc with hl | hsp
  · have := toNat_ge_of_lower c hl
    rw [he] at this
    exact absurd this (by decide)
  · rw [hsp] at he
    exact absurd he (by decide)

/-- Collapsing non-alphanumeric runs is the identity on canonical lists. -/
theorem collapseAux_id : ∀ (l : List Char) (allow b : Bool), canonF allow l = true →
    (b = true → allow = false) → collapseAux b l = l := by
  intro l
  induction l with
  | nil => intro allow b _ _; rfl
  | cons c rest ih =>
    intro allow b h hb
    cases hcl : isLowerAlnum c with
    | true =>
      have hca : isAlnumAscii c = true := by
        simp only [isLowerAlnum, decide_eq_true_eq] at hcl
        simp only [isAlnumAscii, decide_eq_true_eq]
        omega
      simp only [canonF, hcl, if_true] at h
      simp only [collapseAux, hca, if_true]
      rw [ih true false h (by simp)]
    | false =>
      by_cases hsp : c = ' '
      · subst hsp
        simp only [canonF, isLowerAlnum_space, Bool.false_eq_true, if_false, eq_self_iff_true,
          if_true, Bool.and_eq_true] at h
        obtain ⟨⟨ha, hne⟩, hrest⟩ := h
        have hbf : b = false := by
          cases b
          · rfl
          · exact absurd (hb rfl) (by rw [ha]; simp)
        subst hbf
        simp only [collapseAux, isAlnumAscii_space, Bool.false_eq_true, if_false]
        rw [ih false true hrest (fun _ => rfl)]
      · exfalso; simp [canonF, hcl, hsp] at h

/-- Leading-whitespace removal is the identity on canonical lists. -/
theorem dropWhile_id_of_canonF (l : List Char) (h : canonF false l = true) :
    l.dropWhile pyIsSpace = l := by
  cases l with
  | nil => rfl
  | cons c rest =>
    cases hcl : isLowerAlnum c with
    | true =>
      exact List.dropWhile_cons_of_neg
        (by simp [pyIsSpace_false_of_ge c (toNat_ge_of_lower c hcl)])
    | false =>
      by_cases hsp : c = ' '
      · exfalso; subst hsp; simp [canonF, isLowerAlnum_space] at h
      · exfalso; simp [canonF, hcl, hsp] at h

/-- Trailing-whitespace removal is the identity on canonical lists. -/
theorem dropWsEnd_id_of_canonF : ∀ (l : List Char) (a : Bool), canonF a l = true →
    dropWsEnd l = l := by
  intro l
  induction l with
  | nil => intro a _; rfl
  | cons c rest ih =>
    intro a h
    rw [dropWsEnd_cons]
    cases hcl : isLowerAlnum c with
    | true =>
      have hns : pyIsSpace c = false := pyIsSpace_false_of_ge c (toNat_ge_of_lower c hcl)
      simp only [canonF, hcl, if_true] at h
      rw [ih true h]
      simp [hns]
    | false =>
      by_cases hsp : c = ' '
      · subst hsp
        simp only [canonF, isLowerAlnum_space, Bool.false_eq_true, if_false, eq_self_iff_true,
          if_true, Bool.and_eq_true] at h
        obtain ⟨⟨ha, hne⟩, hrest⟩ := h
        rw [ih false hrest]
        have hre : rest.isEmpty = false := by simpa using hne
        simp [hre]
      · exfalso; simp [canonF, hcl, hsp] at h

/-- Lower-casing is the identity on canonical lists. -/
theorem map_lower_id_of_canonF (l : List Char) (a : Bool) (h : canonF a l = true) :
    l.map lowerChar = l := by
  have hall : ∀ c ∈ l, lowerChar c = c := by
    intro c hc
    rcases canonF_mem l a h c hc with hl | hsp
    · exact lowerChar_of_lower c hl
    · rw [hsp]; exact lowerChar_space
  calc l.map lowerChar = l.map id := List.map_congr_left hall
  _ = l := List.map_id l

/-- Whitespace-run collapsing is the identity on canonical lists. -/
theorem collapseWsAux_id : ∀ (l : List Char) (allow b : Bool), canonF allow l = true →
    (b = true → allow = false) → collapseWsAux b l = l := by
  intro l
  induction l with
  | nil => intro allow b _ _; rfl
  | cons c rest ih =>
    intro allow b h hb
    cases hcl : isLowerAlnum c with
    | true =>
      have hns : pyIsSpace c = false := pyIsSpace_false_of_ge c (toNat_ge_of_lower c hcl)
      simp only [canonF, hcl, if_true] at h
      simp only [collapseWsAux, hns, Bool.false_eq_true, if_false]
      rw [ih true false h (by simp)]
    | false =>
      by_cases hsp : c = ' '
      · subst hsp
        simp only [canonF, isLowerAlnum_space, Bool.false_eq_true, if_false, eq_self_iff_true,
          if_true, Bool.and_eq_true] at h
        obtain ⟨⟨ha, hne⟩, hrest⟩ := h
        have hbf : b = false := by
          cases b
          · rfl
          · exact absurd (hb rfl) (by rw [ha]; simp)
        subst hbf
        have hws : pyIsSpace ' ' = true := by decide
        simp only [collapseWsAux, hws, if_true, Bool.false_eq_true, if_false]
        rw [ih false true hrest (fun _ => rfl)]
      · exfalso; simp [canonF, hcl, hsp] at h

/-- Canonical lists are ASCII-only as strings. -/
theorem asciiOnly_of_canonF (l : List Char) (h : canonF false l = true) :
    asciiOnly (String.mk l) = true := by
  simp only [asciiOnly, List.all_eq_true]
  intro c hc
  rcases canonF_mem l false h c hc with hl | hsp
  · have := toNat_lt_of_lower c hl
    simpa using this
  · rw [hsp]; decide

/-- Every normalized list is canonical. -/
theorem canonF_normalizeChars (l : List Char) : canonF false (normalizeChars l) = true := by
  unfold normalizeChars trimChars
  have h1 := wsp_collapseAux (foldAmp l) false
  have h2 := wsp_dropWhile _ true (by simpa using h1)
  have h3 := canonUF_dropWsEnd _ false h2
  have h4 := canonF_map_lower _ false h3
  rw [collapseWsAux_id _ false false h4 (by simp)]
  exact h4

/-- Normalization is the identity on canonical lists. -/
theorem normalizeChars_id (m : List Char) (h : canonF false m = true) :
    normalizeChars m = m := by
  unfold normalizeChars trimChars
  rw [foldAmp_eq_self m (canonF_not_amp m false h)]
  rw [collapseAux_id m false false h (by simp)]
  rw [dropWhile_id_of_canonF m h]
  rw [dropWsEnd_id_of_canonF m false h]
  rw [map_lower_id_of_canonF m false h]
  rw [collapseWsAux_id m false false h (by simp)]

/-- Equivalent characters agree on being alphanumeric. -/
theorem chrEquiv_alnum_eq (c d : Char) (h : chrEquiv c d = true) :
    isAlnumAscii c = isAlnumAscii d := by
  cases hc : isAlnumAscii c with
  | true =>
    simp only [chrEquiv, hc, if_true, Bool.and_eq_true] at h
    rw [h.1]
  | false =>
    simp only [chrEquiv, hc, Bool.false_eq_true, if_false, Bool.and_eq_true,
      Bool.not_eq_true'] at h
    rw [h.1]

/-- Equivalent alphanumerics agree after lower-casing. -/
theorem chrEquiv_lower_eq (c d : Char) (hc : isAlnumAscii c = true) (h : chrEquiv c d = true) :
    lowerChar c = lowerChar d := by
  simp only [chrEquiv, hc, if_true, Bool.and_eq_true, beq_iff_eq] at h
  exact h.2

/-- Equivalent non-alphanumerics agree on being the ampersand. -/
theorem chrEquiv_amp_iff (c d : Char) (hc : isAlnumAscii c = false) (h : chrEquiv c d = true) :
    (c = ampChar) ↔ (d = ampChar) := by
  simp only [chrEquiv, hc, Bool.false_eq_true, if_false, Bool.and_eq_true] at h
  obtain ⟨-, h2⟩ := h
  rw [beq_iff_eq] at h2
  constructor
  · intro hce
    have hd : (d == ampChar) = true := by rw [← h2, hce]; simp
    simpa using hd
  · intro hde
    have hc2 : (c == ampChar) = true := by rw [h2, hde]; simp
    simpa using hc2

/-- Pointwise equivalence is reflexive. -/
theorem chrsEquiv_refl : ∀ l : List Char, chrsEquiv l l = true := by
  intro l
  induction l with
  | nil => rfl
  | cons c rest ih =>
    simp only [chrsEquiv, Bool.and_eq_true]
    refine ⟨?_, ih⟩
    unfold chrEquiv
    by_cases hc : isAlnumAscii c = true
    · simp [hc]
    · simp [hc]

/-- Pointwise equivalence respects concatenation. -/
theorem chrsEquiv_append : ∀ (a b c d : List Char), chrsEquiv a b = true →
    chrsEquiv c d = true → chrsEquiv (a ++ c) (b ++ d) = true := by
  intro a
  induction a with
  | nil =>
    intro b c d hab hcd
    cases b with
    | nil => simpa using hcd
    | cons _ _ => simp [chrsEquiv] at hab
  | cons x xs ih =>
    intro b c d hab hcd
    cases b with
    | nil => simp [chrsEquiv] at hab
    | cons y ys =>
      simp only [chrsEquiv, Bool.and_eq_true] at hab
      simp only [List.cons_append, chrsEquiv, Bool.and_eq_true]
      exact ⟨hab.1, ih ys c d hab.2 hcd⟩

/-- Pointwise equivalent lists have equal length. -/
theorem chrsEquiv_length : ∀ (a b : List Char), chrsEquiv a b = true →
    a.length = b.length := by
  intro a
  induction a with
  | nil =>
    intro b h
    cases b with
    | nil => rfl
    | cons _ _ => simp [chrsEquiv] at h
  | cons x xs ih =>
    intro b h
    cases b with
    | nil => simp [chrsEquiv] at h
    | cons y ys =>
      simp only [chrsEquiv, Bool.and_eq_true] at h
      simp [ih ys h.2]

/-- Ampersand expansion preserves pointwise equivalence. -/
theorem chrsEquiv_foldAmp : ∀ (a b : List Char), chrsEquiv a b = true →
    chrsEquiv (foldAmp a) (foldAmp b) = true := by
  intro a
  induction a with
  | nil =>
    intro b h
    cases b with
    | nil => rfl
    | cons _ _ => simp [chrsEquiv] at h
  | cons x xs ih =>
    intro b h
    cases b with
    | nil => simp [chrsEquiv] at h
    | cons y ys =>
      simp only [chrsEquiv, Bool.and_eq_true] at h
      obtain ⟨hxy, hrest⟩ := h
      simp only [foldAmp, List.flatMap_cons]
      apply chrsEquiv_append
      · by_cases hax : x = ampChar
        · have hxna : isAlnumAscii x = false := by rw [hax]; decide
          have hay : y = ampChar := (chrEquiv_amp_iff x y hxna hxy).mp hax
          rw [if_pos hax, if_pos hay]
          exact chrsEquiv_refl _
        · by_cases hcx : isAlnumAscii x = true
          · have hay : ¬ y = ampChar := by
              intro hy
              have hya : isAlnumAscii y = false := by rw [hy]; decide
              rw [chrEquiv_alnum_eq x y hxy, hya] at hcx
              cases hcx
            rw [if_neg hax, if_neg hay]
            simpa [chrsEquiv] using hxy
          · have hxna : isAlnumAscii x = false := by simpa using hcx
            have hay : ¬ y = ampChar := fun hy => hax ((chrEquiv_amp_iff x y hxna hxy).mpr hy)
            rw [if_neg hax, if_neg hay]
            simpa [chrsEquiv] using hxy
      · exact ih ys hrest

/-- Collapsing preserves pointwise equivalence, for equal flags. -/
theorem chrsEquiv_collapseAux : ∀ (a b : List Char) (flag : Bool), chrsEquiv a b = true →
    chrsEquiv (collapseAux flag a) (collapseAux flag b) = true := by
  intro a
  induction a with
  | nil =>
    intro b flag h
    cases b with
    | nil => rfl
    | cons _ _ => simp [chrsEquiv] at h
  | cons x xs ih =>
    intro b flag h
    cases b with
    | nil => simp [chrsEquiv] at h
    | cons y ys =>
      simp only [chrsEquiv, Bool.and_eq_true] at h
      obtain ⟨hxy, hrest⟩ := h
      have halnum := chrEquiv_alnum_eq x y hxy
      cases hcx : isAlnumAscii x with
      | true =>
        have hcy : isAlnumAscii y = true := by rw [hcx] at halnum; exact halnum.symm
        simp only [collapseAux, hcx, hcy, if_true]
        simp only [chrsEquiv, Bool.and_eq_true]
        exact ⟨hxy, ih ys false hrest⟩
      | false =>
        have hcy : isAlnumAscii y = false := by rw [hcx] at halnum; exact halnum.symm
        simp only [collapseAux, hcx, hcy, Bool.false_eq_true, if_false]
        cases flag with
        | true => exact ih ys true hrest
        | false =>
          simp only [Bool.false_eq_true, if_false]
          simp only [chrsEquiv, Bool.and_eq_true]
          exact ⟨by decide, ih ys true hrest⟩

/-- Members of an alnum-space list. -/
theorem wsp_mem : ∀ (l : List Char) (a : Bool), wsp a l = true →
    ∀ c ∈ l, isAlnumAscii c = true ∨ c = ' ' := by
  intro l
  induction l with
  | nil => intro a _ c hc; cases hc
  | cons d rest ih =>
    intro a h c hcmem
    cases hd : isAlnumAscii d with
    | true =>
      simp only [wsp, hd, if_true] at h
      rcases List.mem_cons.mp hcmem with he | he
      · subst he; exact Or.inl hd
      · exact ih true h c he
    | false =>
      by_cases hsp : d = ' '
      · subst hsp
        simp only [wsp, isAlnumAscii_space, Bool.false_eq_true, if_false, eq_self_iff_true,
          if_true, Bool.and_eq_true] at h
        rcases List.mem_cons.mp hcmem with he | he
        · subst he; exact Or.inr rfl
        · exact ih false h.2 c he
      · exfalso; simp [wsp, hd, hsp] at h

/-- On alnum-space lists, equivalence survives dropping leading whitespace. -/
theorem chrsEquiv_dropWhile : ∀ (a b : List Char),
    (∀ c ∈ a, isAlnumAscii c = true ∨ c = ' ') →
    (∀ c ∈ b, isAlnumAscii c = true ∨ c = ' ') →
    chrsEquiv a b = true →
    chrsEquiv (a.dropWhile pyIsSpace) (b.dropWhile pyIsSpace) = true := by
  intro a
  induction a with
  | nil =>
    intro b _ _ h
    cases b with
    | nil => rfl
    | cons _ _ => simp [chrsEquiv] at h
  | cons x xs ih =>
    intro b hma hmb h
    cases b with
    | nil => simp [chrsEquiv] at h
    | cons y ys =>
      simp only [chrsEquiv, Bool.and_eq_true] at h
      obtain ⟨hxy, hrest⟩ := h
      have halnum := chrEquiv_alnum_eq x y hxy
      cases hcx : isAlnumAscii x with
      | true =>
        have hcy : isAlnumAscii y = true := by rw [hcx] at halnum; exact halnum.symm
        rw [List.dropWhile_cons_of_neg
          (by simp [pyIsSpace_false_of_ge x (toNat_ge_of_alnum x hcx)])]
        rw [List.dropWhile_cons_of_neg
          (by simp [pyIsSpace_false_of_ge y (toNat_ge_of_alnum y hcy)])]
        simp only [chrsEquiv, Bool.and_eq_true]
        exact ⟨hxy, hrest⟩
      | false =>
        have hcy : isAlnumAscii y = false := by rw [hcx] at halnum; exact halnum.symm
        have hx : x = ' ' := by
          rcases hma x (List.mem_cons_self x xs) with hal | hsp
          · rw [hal] at hcx; cases hcx
          · exact hsp
        have hy : y = ' ' := by
          rcases hmb y (List.mem_cons_self y ys) with hal | hsp
          · rw [hal] at hcy; cases hcy
          · exact hsp
        subst hx; subst hy
        rw [List.dropWhile_cons_of_pos (by decide), List.dropWhile_cons_of_pos (by decide)]
        exact ih ys (fun c hc => hma c (List.mem_cons_of_mem _ hc))
          (fun c hc => hmb c (List.mem_cons_of_mem _ hc)) hrest

/-- Removing trailing whitespace stays within the original members. -/
theorem dropWsEnd_subset : ∀ (l : List Char), ∀ c ∈ dropWsEnd l, c ∈ l := by
  intro l
  induction l with
  | nil => intro c hc; cases hc
  | cons x xs ih =>
    intro c hc
    rw [dropWsEnd_cons] at hc
    by_cases hcond : ((dropWsEnd xs).isEmpty && pyIsSpace x) = true
    · rw [if_pos hcond] at hc; cases hc
    · rw [if_neg hcond] at hc
      rcases List.mem_cons.mp hc with he | he
      · exact he ▸ List.mem_cons_self _ _
      · exact List.mem_cons_of_mem _ (ih c he)

/-- On alnum-space lists, equivalence survives dropping trailing whitespace. -/
theorem chrsEquiv_dropWsEnd : ∀ (a b : List Char),
    (∀ c ∈ a, isAlnumAscii c = true ∨ c = ' ') →
    (∀ c ∈ b, isAlnumAscii c = true ∨ c = ' ') →
    chrsEquiv a b = true →
    chrsEquiv (dropWsEnd a) (dropWsEnd b) = true := by
  intro a
  induction a with
  | nil =>
    intro b _ _ h
    cases b with
    | nil => rfl
    | cons _ _ => simp [chrsEquiv] at h
  | cons x xs ih =>
    intro b hma hmb h
    cases b with
    | nil => simp [chrsEquiv] at h
    | cons y ys =>
      simp only [chrsEquiv, Bool.and_eq_true] at h
      obtain ⟨hxy, hrest⟩ := h
      have hrec := ih ys (fun c hc => hma c (List.mem_cons_of_mem _ hc))
        (fun c hc => hmb c (List.mem_cons_of_mem _ hc)) hrest
      have hlen := chrsEquiv_length _ _ hrec
      have hemp : (dropWsEnd xs).isEmpty = (dropWsEnd ys).isEmpty := by
        cases hxe : dropWsEnd xs with
        | nil =>
          cases hye : dropWsEnd ys with
          | nil => rfl
          | cons h2 t2 => rw [hxe, hye] at hlen; simp at hlen
        | cons h1 t1 =>
          cases hye : dropWsEnd ys with
          | nil => rw [hxe, hye] at hlen; simp at hlen
          | cons h2 t2 => rfl
      have hspace : pyIsSpace x = pyIsSpace y := by
        have halnum := chrEquiv_alnum_eq x y hxy
        cases hcx : isAlnumAscii x with
        | true =>
          have hcy : isAlnumAscii y = true := by rw [hcx] at halnum; exact halnum.symm
          rw [pyIsSpace_false_of_ge x (toNat_ge_of_alnum x hcx),
              pyIsSpace_false_of_ge y (toNat_ge_of_alnum y hcy)]
        | false =>
          have hcy : isAlnumAscii y = false := by rw [hcx] at halnum; exact halnum.symm
          have hx : x = ' ' := by
            rcases hma x (List.mem_cons_self x xs) with hal | hsp
            · rw [hal] at hcx; cases hcx
            · exact hsp
          have hy : y = ' ' := by
            rcases hmb y (List.mem_cons_self y ys) with hal | hsp
            · rw [hal] at hcy; cases hcy
            · exact hsp
          rw [hx, hy]
      rw [dropWsEnd_cons, dropWsEnd_cons, hemp, hspace]
      by_cases hcond : ((dropWsEnd ys).isEmpty && pyIsSpace y) = true
      · rw [if_pos hcond, if_pos hcond]
        rfl
      · rw [if_neg hcond, if_neg hcond]
        simp only [chrsEquiv, Bool.and_eq_true]
        exact ⟨hxy, hrec⟩

/-- On alnum-space lists, pointwise equivalent lists lower-case to equal lists. -/
theorem map_lower_eq_of_equiv : ∀ (a b : List Char),
    (∀ c ∈ a, isAlnumAscii c = true ∨ c = ' ') →
    (∀ c ∈ b, isAlnumAscii c = true ∨ c = ' ') →
    chrsEquiv a b = true →
    a.map lowerChar = b.map lowerChar := by
  intro a
  induction a with
  | nil =>
    intro b _ _ h
    cases b with
    | nil => rfl
    | cons _ _ => simp [chrsEquiv] at h
  | cons x xs ih =>
    intro b hma hmb h
    cases b with
    | nil => simp [chrsEquiv] at h
    | cons y ys =>
      simp only [chrsEquiv, Bool.and_eq_true] at h
      obtain ⟨hxy, hrest⟩ := h
      have halnum := chrEquiv_alnum_eq x y hxy
      simp only [List.map_cons]
      have hhead : lowerChar x = lowerChar y := by
        cases hcx : isAlnumAscii x with
        | true => exact chrEquiv_lower_eq x y hcx hxy
        | false =>
          have hcy : isAlnumAscii y = false := by rw [hcx] at halnum; exact halnum.symm
          have hx : x = ' ' := by
            rcases hma x (List.mem_cons_self x xs) with hal | hsp
            · rw [hal] at hcx; cases hcx
            · exact hsp
          have hy : y = ' ' := by
            rcases hmb y (List.mem_cons_self y ys) with hal | hsp
            · rw [hal] at hcy; cases hcy
            · exact hsp
          rw [hx, hy]
      rw [hhead, ih ys (fun c hc => hma c (List.mem_cons_of_mem _ hc))
        (fun c hc => hmb c (List.mem_cons_of_mem _ hc)) hrest]

/-- Pointwise equivalent folds normalize to the same canonical string. -/
theorem normalize_eq_of_equiv (fold : String → String) (s t : String)
    (h : chrsEquiv (fold s).toList (fold t).toList = true) :
    normalize_country_name fold s = normalize_country_name fold t := by
  unfold normalize_country_name normalizeChars trimChars
  have e1 := chrsEquiv_foldAmp _ _ h
  have e2 := chrsEquiv_collapseAux _ _ false e1
  have m1 := wsp_mem _ true (by simpa using wsp_collapseAux (foldAmp (fold s).toList) false)
  have m2 := wsp_mem _ true (by simpa using wsp_collapseAux (foldAmp (fold t).toList) false)
  have e3 := chrsEquiv_dropWhile _ _ m1 m2 e2
  have m1d : ∀ c ∈ (collapseAux false (foldAmp (fold s).toList)).dropWhile pyIsSpace,
      isAlnumAscii c = true ∨ c = ' ' :=
    fun c hc => m1 c ((List.dropWhile_sublist _).subset hc)
  have m2d : ∀ c ∈ (collapseAux false (foldAmp (fold t).toList)).dropWhile pyIsSpace,
      isAlnumAscii c = true ∨ c = ' ' :=
    fun c hc => m2 c ((List.dropWhile_sublist _).subset hc)
  have e4 := chrsEquiv_dropWsEnd _ _ m1d m2d e3
  have m1e : ∀ c ∈ dropWsEnd ((collapseAux false (foldAmp (fold s).toList)).dropWhile pyIsSpace),
      isAlnumAscii c = true ∨ c = ' ' :=
    fun c hc => m1d c (dropWsEnd_subset _ c hc)
  have m2e : ∀ c ∈ dropWsEnd ((collapseAux false (foldAmp (fold t).toList)).dropWhile pyIsSpace),
      isAlnumAscii c = true ∨ c = ' ' :=
    fun c hc => m2d c (dropWsEnd_subset _ c hc)
  have e5 := map_lower_eq_of_equiv _ _ m1e m2e e4
  rw [e5]

/-- Counterexample to claim C7 as stated: the labels differ only by one
punctuation character (ampersand versus period, in the same position), yet
normalization maps them to different canonical forms, because the ampersand
is expanded to the word and. The identity fold is the true behavior of the
NFKD-plus-ASCII-encode collaborator on these ASCII-only labels. -/
theorem c7_counterexample :
    "A&B".length = "A.B".length ∧
    normalize_country_name (fun v => v) "A&B" = "a and b" ∧
    normalize_country_name (fun v => v) "A.B" = "a b" ∧
    normalize_country_name (fun v => v) "A&B" ≠ normalize_country_name (fun v => v) "A.B" := by
  refine ⟨by decide, by decide, by decide, by decide⟩

/-- Claim C7 as amended: for every fold that is the identity on ASCII (as
NFKD decomposition plus ASCII encoding is), normalization is idempotent; and
any two labels whose folds are pointwise equivalent - equal up to letter
case on alphanumerics and up to substitution of non-alphanumerics, with the
ampersand excepted since it expands to the word and - normalize to the same
canonical form. -/
theorem c7_normalization_idempotent_invariant (fold : String → String) (s t : String)
    (hfold : ∀ u, asciiOnly u = true → fold u = u) :
    normalize_country_name fold (normalize_country_name fold s) =
      normalize_country_name fold s ∧
    (chrsEquiv (fold s).toList (fold t).toList = true →
      normalize_country_name fold s = normalize_country_name fold t) := by
  constructor
  · unfold normalize_country_name
    have hm : canonF false (normalizeChars (fold s).toList) = true := canonF_normalizeChars _
    rw [hfold (String.mk (normalizeChars (fold s).toList))
      (asciiOnly_of_canonF _ hm)]
    show String.mk (normalizeChars (normalizeChars (fold s).toList)) = _
    rw [normalizeChars_id _ hm]
  · exact fun h => normalize_eq_of_equiv fold s t h

/-- Witness for the amended C7: a case-and-punctuation variant pair
normalizes identically, and normalization is idempotent there. -/
theorem c7_witness :
    normalize_country_name (fun u => u) "Guinea-Bissau" =
      normalize_country_name (fun u => u) "guinea bissau" ∧
    normalize_country_name (fun u => u)
        (normalize_country_name (fun u => u) "Guinea-Bissau") =
      normalize_country_name (fun u => u) "Guinea-Bissau" := by
  have h := c7_normalization_idempotent_invariant (fun u => u) "Guinea-Bissau" "guinea bissau"
    (fun _ _ => rfl)
  exact ⟨h.2 (by decide), h.1⟩

/-! ## Claim C8: population table invariants -/

/-- Code-point lexicographic comparison is total. -/
theorem charsLeB_total : ∀ (x y : List Char), charsLeB x y = true ∨ charsLeB y x = true := by
  intro x
  induction x with
  | nil => intro y; left; rfl
  | cons a as ih =>
    intro y
    cases y with
    | nil => right; rfl
    | cons b bs =>
      simp only [charsLeB]
      by_cases hab : a.toNat < b.toNat
      · left; rw [if_pos hab]
      · by_cases hba : b.toNat < a.toNat
        · right; rw [if_pos hba]
        · rw [if_neg hab, if_neg hba, if_neg hba, if_neg hab]
          exact ih bs

/-- Code-point lexicographic comparison is transitive. -/
theorem charsLeB_trans : ∀ (x y z : List Char), charsLeB x y = true → charsLeB y z = true →
    charsLeB x z = true := by
  intro x
  induction x with
  | nil => intro y z _ _; rfl
  | cons a as ih =>
    intro y z hxy hyz
    cases y with
    | nil => simp [charsLeB] at hxy
    | cons b bs =>
      cases z with
      | nil => simp [charsLeB] at hyz
      | cons c cs =>
        simp only [charsLeB] at hxy hyz ⊢
        by_cases hab : a.toNat < b.toNat
        · by_cases hbc : b.toNat < c.toNat
          · rw [if_pos (by omega)]
          · rw [if_neg hbc] at hyz
            by_cases hcb : c.toNat < b.toNat
            · rw [if_pos hcb] at hyz; cases hyz
            · rw [if_pos (by omega)]
        · rw [if_neg hab] at hxy
          by_cases hba : b.toNat < a.toNat
          · rw [if_pos hba] at hxy; cases hxy
          · rw [if_neg hba] at hxy
            by_cases hbc : b.toNat < c.toNat
            · rw [if_pos (by omega)]
            · rw [if_neg hbc] at hyz
              by_cases hcb : c.toNat < b.toNat
              · rw [if_pos hcb] at hyz; cases hyz
              · rw [if_neg hcb] at hyz
                rw [if_neg (by omega), if_neg (by omega)]
                exact ih bs cs hxy hyz

/-- Code-point lexicographic comparison is antisymmetric. -/
theorem charsLeB_antisymm : ∀ (x y : List Char), charsLeB x y = true → charsLeB y x = true →
    x = y := by
  intro x
  induction x with
  | nil =>
    intro y _ hyx
    cases y with
    | nil => rfl
    | cons b bs => simp [charsLeB] at hyx
  | cons a as ih =>
    intro y hxy hyx
    cases y with
    | nil => simp [charsLeB] at hxy
    | cons b bs =>
      simp only [charsLeB] at hxy hyx
      by_cases hab : a.toNat < b.toNat
      · exfalso
        rw [if_neg (show ¬ b.toNat < a.toNat by omega), if_pos hab] at hyx
        exact Bool.false_ne_true hyx
      · by_cases hba : b.toNat < a.toNat
        · exfalso
          rw [if_neg hab, if_pos hba] at hxy
          exact Bool.false_ne_true hxy
        · rw [if_neg hab, if_neg hba] at hxy
          rw [if_neg hba, if_neg hab] at hyx
          have hhead : a = b := char_eq_of_toNat_eq (by omega)
          rw [hhead, ih bs hxy hyx]

/-- Strings with equal character lists are equal. -/
theorem string_toList_inj {s t : String} (h : s.toList = t.toList) : s = t := by
  cases s; cases t
  exact congrArg String.mk (by simpa using h)

/-- The key order is reflexive. -/
theorem keyLeB_refl (a : String × Int) : keyLeB a a = true := by
  simp [keyLeB]

/-- The key order is total. -/
theorem keyLeB_total (a b : String × Int) : keyLeB a b = true ∨ keyLeB b a = true := by
  unfold keyLeB
  by_cases hab : a.1 = b.1
  · rw [if_pos hab, if_pos hab.symm]
    rcases Int.le_total a.2 b.2 with h | h
    · left; simpa using h
    · right; simpa using h
  · rw [if_neg hab, if_neg (fun h => hab h.symm)]
    exact charsLeB_total _ _

/-- The key order is transitive. -/
theorem keyLeB_trans (a b c : String × Int) (hab : keyLeB a b = true)
    (hbc : keyLeB b c = true) : keyLeB a c = true := by
  unfold keyLeB at hab hbc ⊢
  by_cases h1 : a.1 = b.1
  · rw [if_pos h1] at hab
    by_cases h2 : b.1 = c.1
    · rw [if_pos h2] at hbc
      rw [if_pos (h1.trans h2)]
      simp only [decide_eq_true_eq] at hab hbc ⊢
      omega
    · rw [if_neg h2] at hbc
      rw [if_neg (by rw [h1]; exact h2), h1]
      exact hbc
  · rw [if_neg h1] at hab
    by_cases h2 : b.1 = c.1
    · rw [if_neg (by rw [← h2]; exact h1), ← h2]
      exact hab
    · rw [if_neg h2] at hbc
      by_cases h3 : a.1 = c.1
      · exfalso
        have hcb : charsLeB c.1.toList b.1.toList = true := by rw [← h3]; exact hab
        have := charsLeB_antisymm _ _ hbc hcb
        exact h2 (string_toList_inj this)
      · rw [if_neg h3]
        exact charsLeB_trans _ _ _ hab hbc

/-- The row order is total. -/
theorem rowLe_total (x y : PRow) : rowLe x y ∨ rowLe y x := keyLeB_total _ _

/-- The row order is transitive. -/
theorem rowLe_trans (x y z : PRow) : rowLe x y → rowLe y z → rowLe x z :=
  keyLeB_trans _ _ _

/-- A row strictly below another has a different key. -/
theorem rowKey_ne_of_not_rowLe (x y : PRow) (h : ¬ rowLe x y) : rowKey y ≠ rowKey x := by
  intro he
  apply h
  unfold rowLe
  rw [he]
  exact keyLeB_refl _

/-- Inserting a row of a different key does not disturb a key filter. -/
theorem orderedInsert_filter_of_ne (a : PRow) (k : String × Int) (hk : rowKey a ≠ k) :
    ∀ l : List PRow, (List.orderedInsert rowLe a l).filter (fun x => decide (rowKey x = k)) =
      l.filter (fun x => decide (rowKey x = k)) := by
  intro l
  induction l with
  | nil => simp [List.orderedInsert, hk]
  | cons b rest ih =>
    simp only [List.orderedInsert]
    by_cases hr : rowLe a b
    · rw [if_pos hr]
      simp [List.filter_cons, hk]
    · rw [if_neg hr]
      simp [List.filter_cons, ih]

/-- Inserting a row places it before every row sharing its key. -/
theorem orderedInsert_filter_of_eq (a : PRow) :
    ∀ l : List PRow,
      (List.orderedInsert rowLe a l).filter (fun x => decide (rowKey x = rowKey a)) =
        a :: l.filter (fun x => decide (rowKey x = rowKey a)) := by
  intro l
  induction l with
  | nil => simp [List.orderedInsert]
  | cons b rest ih =>
    simp only [List.orderedInsert]
    by_cases hr : rowLe a b
    · rw [if_pos hr]
      simp [List.filter_cons]
    · rw [if_neg hr]
      have hbk : rowKey b ≠ rowKey a := rowKey_ne_of_not_rowLe a b hr
      simp [List.filter_cons, hbk, ih]

/-- Stability of the insertion sort: rows of one key keep their order. -/
theorem insertionSort_filter_key : ∀ (l : List PRow) (k : String × Int),
    (List.insertionSort rowLe l).filter (fun x => decide (rowKey x = k)) =
      l.filter (fun x => decide (rowKey x = k)) := by
  intro l
  induction l with
  | nil => intro k; rfl
  | cons a rest ih =>
    intro k
    simp only [List.insertionSort]
    by_cases hk : rowKey a = k
    · subst hk
      rw [orderedInsert_filter_of_eq a (List.insertionSort rowLe rest), ih (rowKey a)]
      simp [List.filter_cons]
    · rw [orderedInsert_filter_of_ne a k hk, ih k]
      simp [List.filter_cons, hk]

/-- Deduplication yields a sublist. -/
theorem dedupKeepLast_sublist : ∀ l : List PRow, (dedupKeepLast l).Sublist l := by
  intro l
  induction l with
  | nil => simp [dedupKeepLast]
  | cons r rest ih =>
    simp only [dedupKeepLast]
    split
    · exact ih.cons r
    · exact ih.cons₂ r

/-- Deduplication keeps, for each key, exactly the last row of that key. -/
theorem dedupKeepLast_filter : ∀ (l : List PRow) (k : String × Int),
    (dedupKeepLast l).filter (fun x => decide (rowKey x = k)) =
      ((l.filter (fun x => decide (rowKey x = k))).getLast?).toList := by
  intro l
  induction l with
  | nil => intro k; rfl
  | cons r rest ih =>
    intro k
    simp only [dedupKeepLast]
    split
    · rename_i hdup
      by_cases hk : rowKey r = k
      · have hex : ∃ x ∈ rest, rowKey x = rowKey r := by
          simpa using hdup
        have hne : rest.filter (fun x => decide (rowKey x = k)) ≠ [] := by
          obtain ⟨x, hx, hxk⟩ := hex
          intro hnil
          have : x ∈ rest.filter (fun x => decide (rowKey x = k)) :=
            List.mem_filter.mpr ⟨hx, by simp [hxk, hk]⟩
          rw [hnil] at this
          cases this
        rw [ih k]
        simp only [List.filter_cons]
        rw [if_pos (by simp [hk])]
        cases hfil : rest.filter (fun x => decide (rowKey x = k)) with
        | nil => exact absurd hfil hne
        | cons q qs => rw [List.getLast?_cons_cons]
      · rw [ih k]
        simp only [List.filter_cons]
        rw [if_neg (by simp [hk])]
    · rename_i hdup
      by_cases hk : rowKey r = k
      · have hnone : rest.filter (fun x => decide (rowKey x = k)) = [] := by
          rw [List.filter_eq_nil_iff]
          intro x hx
          simp only [decide_eq_true_eq]
          intro hxk
          apply hdup
          simp only [List.any_eq_true]
          exact ⟨x, hx, by simp [hxk, hk]⟩
        have hded : (dedupKeepLast rest).filter (fun x => decide (rowKey x = k)) = [] := by
          have hsub := (dedupKeepLast_sublist rest).filter (fun x => decide (rowKey x = k))
          rw [hnone] at hsub
          exact List.sublist_nil.mp hsub
        simp only [List.filter_cons]
        rw [if_pos (by simp [hk]), if_pos (by simp [hk])]
        rw [hded, hnone]
        rfl
      · simp only [List.filter_cons]
        rw [if_neg (by simp [hk]), if_neg (by simp [hk])]
        exact ih k

/-- Deduplicated lists have pairwise distinct keys. -/
theorem dedupKeepLast_pairwise : ∀ l : List PRow,
    (dedupKeepLast l).Pairwise (fun a b => rowKey a ≠ rowKey b) := by
  intro l
  induction l with
  | nil => exact List.Pairwise.nil
  | cons r rest ih =>
    simp only [dedupKeepLast]
    split
    · exact ih
    · rename_i hdup
      refine List.pairwise_cons.mpr ⟨?_, ih⟩
      intro b hb hbe
      apply hdup
      simp only [List.any_eq_true]
      exact ⟨b, (dedupKeepLast_sublist rest).subset hb, by simp [hbe.symm]⟩

/-- In a list with pairwise distinct keys, the key filter at a member is a
singleton. -/
theorem filter_key_of_mem_pairwise : ∀ (l : List PRow),
    l.Pairwise (fun a b => rowKey a ≠ rowKey b) → ∀ r ∈ l,
      l.filter (fun x => decide (rowKey x = rowKey r)) = [r] := by
  intro l
  induction l with
  | nil => intro _ r hr; cases hr
  | cons a rest ih =>
    intro hp r hr
    obtain ⟨hhead, htail⟩ := List.pairwise_cons.mp hp
    rcases List.mem_cons.mp hr with he | he
    · subst he
      simp only [List.filter_cons]
      rw [if_pos (by simp)]
      have : rest.filter (fun x => decide (rowKey x = rowKey r)) = [] := by
        rw [List.filter_eq_nil_iff]
        intro x hx
        simp only [decide_eq_true_eq]
        exact fun hxe => hhead x hx hxe.symm
      rw [this]
    · simp only [List.filter_cons]
      rw [if_neg (by simp [hhead r he]), ih htail r he]

/-- Claim C8: every population table built by the assembler has pairwise
distinct (country, year) keys; every row carries a present country, year and
population; the rows are sorted by (country, year); and each surviving row is
the last occurrence of its key among the coerced complete rows. -/
theorem c8_population_invariants (parseNum : String → Option Int) (raws : List PRaw) :
    (build_population_rows parseNum raws).Pairwise (fun a b => rowKey a ≠ rowKey b) ∧
    (∀ r ∈ build_population_rows parseNum raws,
      r.country.isSome = true ∧ r.year.isSome = true ∧ r.population.isSome = true) ∧
    (build_population_rows parseNum raws).Pairwise rowLe ∧
    (∀ r ∈ build_population_rows parseNum raws,
      (((raws.map (coerceRow parseNum)).filter keepRow).filter
        (fun x => decide (rowKey x = rowKey r))).getLast? = some r) := by
  refine ⟨dedupKeepLast_pairwise _, ?_, ?_, ?_⟩
  · intro r hr
    have h1 : r ∈ List.insertionSort rowLe ((raws.map (coerceRow parseNum)).filter keepRow) :=
      (dedupKeepLast_sublist _).subset hr
    have h2 : r ∈ (raws.map (coerceRow parseNum)).filter keepRow :=
      (List.perm_insertionSort rowLe _).subset h1
    have h3 := List.of_mem_filter h2
    simp only [keepRow, Bool.and_eq_true] at h3
    exact ⟨h3.1.1, h3.1.2, h3.2⟩
  · haveI : IsTotal PRow rowLe := ⟨rowLe_total⟩
    haveI : IsTrans PRow rowLe := ⟨fun a b c => rowLe_trans a b c⟩
    exact List.Pairwise.sublist (dedupKeepLast_sublist _)
      (List.sorted_insertionSort rowLe _)
  · intro r hr
    have hsingle := filter_key_of_mem_pairwise _ (dedupKeepLast_pairwise
      (List.insertionSort rowLe ((raws.map (coerceRow parseNum)).filter keepRow))) r hr
    have hd := dedupKeepLast_filter
      (List.insertionSort rowLe ((raws.map (coerceRow parseNum)).filter keepRow)) (rowKey r)
    rw [insertionSort_filter_key] at hd
    rw [hsingle] at hd
    cases hlast : (((raws.map (coerceRow parseNum)).filter keepRow).filter
        (fun x => decide (rowKey x = rowKey r))).getLast? with
    | none => rw [hlast] at hd; cases hd
    | some q =>
      rw [hlast] at hd
      simp only [Option.toList] at hd
      injection hd with h1 _
      rw [h1]

/-- Witness for C8 at concrete rows with a duplicate key and a missing year. -/
theorem c8_witness :
    build_population_rows parseW rawsW =
      [⟨some "KEN", some 2019, some 7, some "Kenya"⟩,
       ⟨some "NGA", some 2020, some 6, some "Nigeria"⟩] ∧
    (((rawsW.map (coerceRow parseW)).filter keepRow).filter
      (fun x => decide (rowKey x =
        rowKey (⟨some "NGA", some 2020, some 6, some "Nigeria"⟩ : PRow)))).getLast? =
      some ⟨some "NGA", some 2020, some 6, some "Nigeria"⟩ := by
  refine ⟨by decide, ?_⟩
  exact (c8_population_invariants parseW rawsW).2.2.2 _ (by decide)
